import Mathlib

/-!
Verification of the mentat control-hub core against its specification.

The Python sources are shallowly embedded: Python values become the
inductive `Val`, pure functions become Lean functions, stateful methods
become explicit state-passing functions, and a raised Python exception
becomes the `.error` case of `Except String`.  Machine floats are modelled
as rationals (no claim under study depends on IEEE rounding).
-/

namespace Mentat

/-- Python runtime values as they occur in the mentat core: `None`, ints,
floats (modelled as rationals), strings, booleans and lists. -/
inductive Val where
  | none : Val
  | int : Int → Val
  | float : ℚ → Val
  | str : String → Val
  | bool : Bool → Val
  | list : List Val → Val

/-- Numeric view used by Python `==`: `bool` is an `int` subclass, and
ints compare equal to floats of the same magnitude. -/
def Val.toNum : Val → Option ℚ
  | .int n => some (n : ℚ)
  | .float q => some q
  | .bool b => some (if b then 1 else 0)
  | _ => Option.none

mutual

/-- Python `==` on embedded values (numeric cross-type equality,
structural equality on lists and strings, `None == None`). -/
def pyEq : Val → Val → Bool
  | .none, .none => true
  | .str a, .str b => a == b
  | .list a, .list b => pyEqList a b
  | a, b =>
    match a.toNum, b.toNum with
    | some x, some y => x == y
    | _, _ => false

/-- Elementwise Python `==` on lists. -/
def pyEqList : List Val → List Val → Bool
  | [], [] => true
  | x :: xs, y :: ys => pyEq x y && pyEqList xs ys
  | _, _ => false

end

/-- Python 3 `round` on a rational: round half to even. -/
def pyRound (q : ℚ) : Int :=
  let f : Int := ⌊q⌋
  if q - f < 1/2 then f
  else if q - f > 1/2 then f + 1
  else if f % 2 = 0 then f else f + 1

/-- Python `int()` applied to a float: truncation toward zero. -/
def pyTrunc (q : ℚ) : Int :=
  if q < 0 then -⌊-q⌋ else ⌊q⌋

/-- Python `int(arg)` for the `'i'`/`'h'` cast: floats are rounded,
ints and bools pass through numerically, anything else raises (modelled
as `Option.none`; string parsing is not needed by any claim and is
modelled as a failure as well). -/
def pyIntOfArg : Val → Option Int
  | .float q => some (pyRound q)
  | .int n => some n
  | .bool b => some (if b then 1 else 0)
  | _ => Option.none

/-- Python `float(arg)` for the `'f'`/`'d'`/`'t'` casts. -/
def pyFloatOfArg : Val → Option ℚ
  | .float q => some q
  | .int n => some (n : ℚ)
  | .bool b => some (if b then 1 else 0)
  | _ => Option.none

/-- Python `str(arg)` (rendering details of floats are irrelevant to the
claims; only the branch structure matters). -/
def pyStr : Val → String
  | .str s => s
  | .int n => toString n
  | .bool b => if b then "True" else "False"
  | .none => "None"
  | .float q => toString q
  | .list _ => "[...]"

/-- The typetag letters present in `Parameter.cast_functions`
(parameter.py lines 125-140). -/
def castTable : List Char :=
  ['i', 'h', 'f', 'd', 't', 's', 'S', 'c', 'T', 'F', 'm', 'N', 'I', 'b']

/-- One entry of `Parameter.cast_functions`: `Option.none` models a raised
exception inside the cast lambda. -/
def castFn (t : Char) (v : Val) : Option Val :=
  if t = 'i' ∨ t = 'h' then (pyIntOfArg v).map Val.int
  else if t = 'f' ∨ t = 'd' ∨ t = 't' then (pyFloatOfArg v).map Val.float
  else if t = 's' ∨ t = 'S' ∨ t = 'c' then some (Val.str (pyStr v))
  else if t = 'T' then some (Val.bool true)
  else if t = 'F' then some (Val.bool false)
  else if t = 'm' ∨ t = 'N' ∨ t = 'I' ∨ t = 'b' then some v
  else Option.none

/-- `Parameter.cast` (parameter.py lines 142-165): a tag in the table is
cast, with fallback to casting `0` when the cast raises; a tag not in the
table passes the value through unchanged. -/
def cast (t : Char) (v : Val) : Val :=
  if t ∈ castTable then
    match castFn t v with
    | some w => w
    | Option.none => (castFn t (Val.int 0)).getD (Val.int 0)
  else v

/-- `Parameter` runtime state (parameter.py lines 6-59); animation fields
are reduced to the ones the studied claims read. -/
structure Parameter where
  name : String
  /-- osc address; `Option.none` embeds Python `None`. -/
  address : Option String
  types : List Char
  args : List Val
  nArgs : Nat
  transform : Option (List Val → List Val)
  animateRunning : Bool
  animateStart : ℚ
  animateDuration : ℚ
  animateFrom : Val
  animateTo : Val
  animateLoop : Bool
  /-- the name under which `easing_function` was looked up in
  `EASING_FUNCTIONS` (`Option.none` embeds the initial Python `None`). -/
  easingName : Option String
  easingMode : String
  dirty : Bool
  lastSent : Val

/-- `Parameter.__init__`: `args = [None] * len(types)` with the static
arguments copied into the leading slots and
`n_args = len(types) - len(static_args)`. -/
def Parameter.init (name : String) (address : Option String) (types : List Char)
    (staticArgs : List Val) (transform : Option (List Val → List Val)) : Parameter :=
  { name := name
    address := address
    types := types
    args := (staticArgs ++ List.replicate (types.length - staticArgs.length) Val.none).take
      types.length
    nArgs := types.length - staticArgs.length
    transform := transform
    animateRunning := false
    animateStart := 0
    animateDuration := 0
    animateFrom := Val.int 0
    animateTo := Val.int 0
    animateLoop := false
    easingName := Option.none
    easingMode := "in"
    dirty := false
    lastSent := Val.none }

/-- The Python slice `self.args[-self.n_args:]` used by `Parameter.get`:
the last `n_args` entries, or the whole list when `n_args = 0` (Python
`[-0:]`) or when `n_args` exceeds the length. -/
def Parameter.dynArgs (p : Parameter) : List Val :=
  if p.nArgs = 0 then p.args else p.args.drop (p.args.length - p.nArgs)

/-- `Parameter.get` (parameter.py lines 61-75): a single dynamic value is
returned bare, several are returned as a list. -/
def Parameter.get (p : Parameter) : Val :=
  match p.dynArgs with
  | [v] => v
  | l => Val.list l

/-- `Parameter.set_last_sent` (parameter.py line 113). -/
def Parameter.setLastSent (p : Parameter) : Parameter :=
  { p with lastSent := p.get }

/-- `Parameter.should_send` (parameter.py line 119): Python
`self.last_sent != self.get()`. -/
def Parameter.shouldSend (p : Parameter) : Bool :=
  ! pyEq p.lastSent p.get

/-- The loop body of `Parameter.set` (parameter.py lines 104-108):
for `i` in `range(n_args)`, cast `args[i]` with typetag
`types[i - n_args]` and write it to `self.args[i - n_args]` when it
differs, tracking whether anything changed.  `k` counts the remaining
iterations (`k = n_args - i`).  Reading past the end of the transformed
argument list is a Python `IndexError`. -/
def Parameter.setLoop (p : Parameter) (args : List Val) (i : Nat) (k : Nat) (changed : Bool) :
    Except String (Parameter × Bool) :=
  match k with
  | 0 => .ok (p, changed)
  | k + 1 =>
    match args.get? i with
    | Option.none => .error "IndexError"
    | some a =>
      let idx := p.args.length - p.nArgs + i
      let value := cast (p.types.getD (p.types.length - p.nArgs + i) '*') a
      if pyEq value (p.args.getD idx Val.none) then
        Parameter.setLoop p args (i + 1) k changed
      else
        Parameter.setLoop { p with args := p.args.set idx value } args (i + 1) k true

/-- `Parameter.set` (parameter.py lines 78-110): reject a wrong argument
count (returns `False` after logging), apply the optional transform, then
run the cast-compare-assign loop over all `n_args` indices. -/
def Parameter.set (p : Parameter) (args : List Val) : Except String (Parameter × Bool) :=
  if args.length ≠ p.nArgs then .ok (p, false)
  else
    match p.transform with
    | some f => Parameter.setLoop p (f args) 0 p.nArgs false
    | Option.none => Parameter.setLoop p args 0 p.nArgs false

/-- `Parameter.stop_animation` (parameter.py line 216). -/
def Parameter.stopAnimation (p : Parameter) : Parameter :=
  { p with animateRunning := false }

/-! ## Scene timer (timer.py) -/

/-- `Timer` state (timer.py lines 8-16): times are monotonic nanoseconds,
embedded as rationals. -/
structure Timer where
  startTime : ℚ
  tempo : ℚ
  endTime : ℚ
  isBeatWaiting : Bool

/-- `Timer.__init__` / `Timer.reset` (timer.py lines 10-25). -/
def Timer.init (engineCurrentTime engineTempo : ℚ) : Timer :=
  { startTime := engineCurrentTime
    tempo := engineTempo
    endTime := engineCurrentTime
    isBeatWaiting := false }

/-- `Timer.update_tempo` (timer.py lines 27-43): while a beat-based wait is
in progress, the remaining time is divided by `new_tempo / self.tempo` and
the end time moved accordingly; the timer then records the new tempo. -/
def Timer.updateTempo (t : Timer) (engineCurrentTime newTempo : ℚ) : Timer :=
  if t.isBeatWaiting then
    let remainingTime := t.endTime - engineCurrentTime
    { t with
      endTime := engineCurrentTime + remainingTime / (newTempo / t.tempo)
      tempo := newTempo }
  else
    { t with tempo := newTempo }

/-- The head of `Timer.wait` (timer.py lines 45-61): convert the duration
to nanoseconds (beat mode divides by the engine tempo and raises the
beat-waiting flag) and set `end_time`; an unrecognized mode is logged and
leaves the timer untouched.  The polling sleep loop and the trailing
assignments are modelled separately by `Timer.finishWait`. -/
def Timer.beginWait (t : Timer) (engineTempo : ℚ) (duration : ℚ) (mode : List Char) : Timer :=
  match mode with
  | 'b' :: _ =>
    { t with
      isBeatWaiting := true
      endTime := t.startTime + duration * 60 / engineTempo * 1000000000 }
  | 's' :: _ => { t with endTime := t.startTime + duration * 1000000000 }
  | ['n', 's'] => { t with endTime := t.startTime + duration }
  | _ => t

/-- The tail of `Timer.wait` (timer.py lines 63-68), reached when
`engine.current_time` has caught up with `end_time`. -/
def Timer.finishWait (t : Timer) : Timer :=
  { t with startTime := t.endTime, isBeatWaiting := false }

/-! ## Engine tempo (engine.py) -/

/-- `Engine.__init__` sets `self.tempo = 120.0` (engine.py line 135). -/
def initialTempo : ℚ := 120

/-- `Engine.set_tempo` (engine.py lines 842-857) restricted to its effect
on `self.tempo`: `max(float(bpm), 0.001)` when the value changes. -/
def setTempo (tempo bpm : ℚ) : ℚ :=
  if bpm ≠ tempo then max bpm (1/1000) else tempo

/-- The engine tempo after construction and a sequence of `set_tempo`
calls. -/
def tempoAfter (calls : List ℚ) : ℚ :=
  calls.foldl setTempo initialTempo

/-! ## Easing and animation start (easing.py, parameter.py) -/

/-- The keys of `EASING_FUNCTIONS` (easing.py lines 83-93). -/
def easingNames : List String :=
  ["linear", "sine", "quadratic", "cubic", "quartic", "quintic",
   "exponential", "random", "elastic"]

/-- The easing modes accepted by `Parameter.start_animation`
(parameter.py line 196). -/
def easingModes : List String :=
  ["in", "out", "inout", "mirror", "mirror-in", "mirror-out", "mirror-inout"]

/-- Python `easing.partition('-')` projected to its first and third
components: the text before the first dash and the text after it. -/
def partitionDash (s : String) : String × String :=
  (String.mk (s.toList.takeWhile (fun c => c != '-')),
   String.mk ((s.toList.dropWhile (fun c => c != '-')).drop 1))

/-- The arity check closing `Parameter.start_animation` (parameter.py
lines 209-214): the source compares `len(self.animate_from)` with
`n_args` twice (the second branch, intended for `animate_to`, repeats the
first test), and raises the running flag when the check passes. -/
def Parameter.finalizeAnimation (p : Parameter) : Parameter :=
  match p.animateFrom with
  | Val.list l => if l.length = p.nArgs then { p with animateRunning := true } else p
  | _ => p

/-- `Parameter.start_animation` (parameter.py lines 181-214).  The source
first splits the easing name, logs unknown easings (rebinding only the
dead local variable `easing`), stores the from/to/start/duration/loop
fields, and then evaluates `EASING_FUNCTIONS[easing_name]` — which raises
`KeyError` when the base name is unknown, since `easing_name` was never
changed.  The partially updated parameter at the uncaught exception is
not observable by the engine, so the embedding returns only the error. -/
def Parameter.startAnimation (p : Parameter) (engineCurrentTime engineTempo : ℚ)
    (start? end? : Option Val) (duration : ℚ) (mode : String) (easing : String)
    (loop : Bool) : Except String Parameter :=
  let easingName := (partitionDash easing).1
  let easingModeGiven := (partitionDash easing).2
  let animateFrom := match start? with
    | some v => v
    | Option.none => p.get
  let animateTo := match end? with
    | some v => v
    | Option.none => p.get
  let p₁ := { p with
    animateFrom := animateFrom
    animateTo := animateTo
    animateStart := engineCurrentTime
    animateDuration := duration * 1000000000
    animateLoop := loop }
  if easingName ∈ easingNames then
    let p₂ := { p₁ with
      easingName := some easingName
      easingMode := if easingModeGiven ∈ easingModes then easingModeGiven else "in"
      animateFrom := match p₁.animateFrom with
        | Val.list l => Val.list l
        | v => Val.list [v]
      animateTo := match p₁.animateTo with
        | Val.list l => Val.list l
        | v => Val.list [v] }
    match mode.toList with
    | 'b' :: _ =>
      let p₃ := { p₂ with animateDuration := p₂.animateDuration * 60 / engineTempo }
      .ok (p₃.finalizeAnimation)
    | 's' :: _ => .ok (p₂.finalizeAnimation)
    | _ => .ok p₂
  else .error ("KeyError: " ++ easingName)

/-! ## MIDI ↔ OSC codec (midi.py) -/

/-- ALSA sequencer event kinds relevant to the codec.  `chanpress` and
`keypress` exist in the ALSA event-type space but have no entry in the
tables of midi.py. -/
inductive SeqEventType where
  | noteon
  | noteoff
  | controller
  | pgmchange
  | pitchbend
  | sysex
  | start
  | cont
  | stop
  | chanpress
  | keypress
  deriving DecidableEq, Repr

/-- An ALSA `SeqEvent` datum: the constructor zero-initializes every data
field; `set_data` assigns the listed ones. -/
structure SeqEvent where
  type : SeqEventType
  noteChannel : Int
  noteNote : Int
  noteVelocity : Int
  controlChannel : Int
  controlParam : Int
  controlValue : Int
  ext : List Int
  deriving DecidableEq, Repr

/-- `alsaseq.SeqEvent(mtype)`: a zero-initialized event. -/
def SeqEvent.init (t : SeqEventType) : SeqEvent :=
  ⟨t, 0, 0, 0, 0, 0, 0, []⟩

/-- The `MIDI_TO_OSC` table (midi.py lines 10-21). -/
def MIDI_TO_OSC : SeqEventType → Option String
  | .noteon => some "/note_on"
  | .noteoff => some "/note_off"
  | .controller => some "/control_change"
  | .pgmchange => some "/program_change"
  | .pitchbend => some "/pitch_bend"
  | .sysex => some "/sysex"
  | .start => some "/start"
  | .cont => some "/continue"
  | .stop => some "/stop"
  | _ => Option.none

/-- The `OSC_TO_MIDI` table (midi.py lines 23-33). -/
def OSC_TO_MIDI (address : String) : Option SeqEventType :=
  if address = "/note_on" then some .noteon
  else if address = "/note_off" then some .noteoff
  else if address = "/control_change" then some .controller
  else if address = "/program_change" then some .pgmchange
  else if address = "/pitch_bend" then some .pitchbend
  else if address = "/sysex" then some .sysex
  else if address = "/start" then some .start
  else if address = "/continue" then some .cont
  else if address = "/stop" then some .stop
  else Option.none

/-- `midi_to_osc` (midi.py lines 35-65): event kinds outside the table
yield `None`; the others yield the table address and the per-kind
argument list (a note-off always reports velocity `0`). -/
def midiToOsc (e : SeqEvent) : Option (String × List Int) :=
  match MIDI_TO_OSC e.type with
  | Option.none => Option.none
  | some address =>
    match e.type with
    | .noteon => some (address, [e.noteChannel, e.noteNote, e.noteVelocity])
    | .noteoff => some (address, [e.noteChannel, e.noteNote, 0])
    | .pitchbend => some (address, [e.controlChannel, e.controlValue])
    | .pgmchange => some (address, [e.controlChannel, e.controlValue])
    | .sysex => some (address, e.ext)
    | .controller => some (address, [e.controlChannel, e.controlParam, e.controlValue])
    | .start => some (address, [])
    | .cont => some (address, [])
    | .stop => some (address, [])
    | _ => Option.none

/-- The integer-coercion loop of `osc_to_midi` (midi.py lines 75-83)
applied to one argument: a `None` argument makes the whole conversion
return `None`; non-integers go through `int(...)` (a raised exception on
an unparseable value is modelled as `Option.none` as well — no claim
exercises that corner).  A `(typetag, value)` tuple is unwrapped to its
value by the source; tuples do not occur among the embedded inputs. -/
def oscArgToInt : Val → Option Int
  | .none => Option.none
  | .int n => some n
  | .bool b => some (if b then 1 else 0)
  | .float q => some (pyTrunc q)
  | .str _ => Option.none
  | .list _ => Option.none

/-- The `iargs` accumulation loop of `osc_to_midi` (midi.py lines 75-83)
over the whole argument list. -/
def oscArgsToInts : List Val → Option (List Int)
  | [] => some []
  | a :: rest =>
    match oscArgToInt a with
    | Option.none => Option.none
    | some n =>
      match oscArgsToInts rest with
      | Option.none => Option.none
      | some ns => some (n :: ns)

/-- `osc_to_midi` (midi.py lines 67-114): unknown addresses yield `None`,
arguments are coerced to integers, and the event's data fields are filled
per kind (note-off discards the velocity argument; transport events carry
no data; an out-of-range index is a Python `IndexError`, modelled as
`Option.none`). -/
def oscToMidi (address : String) (args : List Val) : Option SeqEvent :=
  match OSC_TO_MIDI address with
  | Option.none => Option.none
  | some t =>
    match oscArgsToInts args with
    | Option.none => Option.none
    | some iargs =>
      let e := SeqEvent.init t
      match t with
      | .noteon =>
        match iargs with
        | c :: n :: v :: _ =>
          some { e with noteChannel := c, noteNote := n, noteVelocity := v }
        | _ => Option.none
      | .noteoff =>
        match iargs with
        | c :: n :: _ => some { e with noteChannel := c, noteNote := n }
        | _ => Option.none
      | .pitchbend =>
        match iargs with
        | c :: v :: _ => some { e with controlChannel := c, controlValue := v }
        | _ => Option.none
      | .pgmchange =>
        match iargs with
        | c :: v :: _ => some { e with controlChannel := c, controlValue := v }
        | _ => Option.none
      | .sysex => some { e with ext := iargs }
      | .controller =>
        match iargs with
        | c :: pa :: v :: _ =>
          some { e with controlChannel := c, controlParam := pa, controlValue := v }
        | _ => Option.none
      | _ => some e

/-- Well-formed MIDI events "of the corresponding kind" in the sense of
the codec table (spec §4.7): data fields outside the kind's data set are
zero, and a note-off carries velocity `0` as in the table's row
`channel, note, 0`.  Kinds absent from the table are not well-formed
codec inputs. -/
def SeqEvent.wellFormed (e : SeqEvent) : Bool :=
  match e.type with
  | .noteon =>
    e.controlChannel == 0 && e.controlParam == 0 && e.controlValue == 0 && e.ext == []
  | .noteoff =>
    e.noteVelocity == 0 && e.controlChannel == 0 && e.controlParam == 0 &&
      e.controlValue == 0 && e.ext == []
  | .controller =>
    e.noteChannel == 0 && e.noteNote == 0 && e.noteVelocity == 0 && e.ext == []
  | .pgmchange =>
    e.noteChannel == 0 && e.noteNote == 0 && e.noteVelocity == 0 &&
      e.controlParam == 0 && e.ext == []
  | .pitchbend =>
    e.noteChannel == 0 && e.noteNote == 0 && e.noteVelocity == 0 &&
      e.controlParam == 0 && e.ext == []
  | .sysex =>
    e.noteChannel == 0 && e.noteNote == 0 && e.noteVelocity == 0 &&
      e.controlChannel == 0 && e.controlParam == 0 && e.controlValue == 0
  | .start =>
    e.noteChannel == 0 && e.noteNote == 0 && e.noteVelocity == 0 &&
      e.controlChannel == 0 && e.controlParam == 0 && e.controlValue == 0 && e.ext == []
  | .cont =>
    e.noteChannel == 0 && e.noteNote == 0 && e.noteVelocity == 0 &&
      e.controlChannel == 0 && e.controlParam == 0 && e.controlValue == 0 && e.ext == []
  | .stop =>
    e.noteChannel == 0 && e.noteNote == 0 && e.noteVelocity == 0 &&
      e.controlChannel == 0 && e.controlParam == 0 && e.controlValue == 0 && e.ext == []
  | _ => false

/-- Well-formed OSC messages at codec-table addresses, per the argument
column of the spec's table (§4.7): right arity, and a literal `0` as the
`/note_off` velocity as documented there. -/
def wellFormedOscMsg : String → List Int → Bool
  | "/note_on", [_, _, _] => true
  | "/note_off", [_, _, v] => v == 0
  | "/control_change", [_, _, _] => true
  | "/program_change", [_, _] => true
  | "/pitch_bend", [_, _] => true
  | "/sysex", _ => true
  | "/start", [] => true
  | "/continue", [] => true
  | "/stop", [] => true
  | _, _ => false

/-! ## Event bus (eventemitter.py) -/

/-- Python `result is False`: identity with the `False` singleton (an
integer `0` is not `False` under `is`). -/
def valIsFalse : Val → Bool
  | .bool false => true
  | _ => false

/-- The callback loop of `EventEmitter.dispatch_event` (eventemitter.py
lines 51-56): every registered callback for the event is invoked in
order, and the bubble flag is cleared whenever one returns `False`; the
loop never breaks early.  Returns the callback results and the final
bubble flag. -/
def dispatchLevel (callbacks : List (List Val → Val)) (args : List Val) :
    List Val × Bool :=
  callbacks.foldl
    (fun acc cb =>
      let r := cb args
      (acc.1 ++ [r], if valIsFalse r then false else acc.2))
    ([], true)

/-- `EventEmitter.dispatch_event` (eventemitter.py lines 37-60) along a
module's ancestor chain: the chain lists, for the dispatched event, each
emitter's registered callbacks from the module up to the engine
(`self.event_callbacks.get(event, [])` per emitter).  Returns the lists
of callback results actually produced, one per emitter reached. -/
def dispatchEvent : List (List (List Val → Val)) → List Val → List (List Val)
  | [], _ => []
  | callbacks :: ancestors, args =>
    let level := dispatchLevel callbacks args
    level.1 :: (if level.2 then dispatchEvent ancestors args else [])

/-! ## Generic OSC control API (engine.py) -/

/-- Python `address.split('/')` specialised to the slash separator,
character-list version. -/
def splitOnSlash : List Char → List (List Char)
  | [] => [[]]
  | c :: rest =>
    let r := splitOnSlash rest
    if c = '/' then [] :: r
    else
      match r with
      | [] => [[c]]
      | x :: xs => (c :: x) :: xs

/-- A module node as seen by `route_generic_osc_api`: its name, the keys
of its `parameters` dict, the names of its callable attributes that pass
the public-or-user-defined filter (engine.py lines 716-725) — parameters
live in the `parameters` dict and are not attributes — and its
submodules. -/
inductive GModule where
  | mk (name : String) (parameterNames : List String) (methodNames : List String)
      (submodules : List GModule)

/-- Module name accessor. -/
def GModule.name : GModule → String
  | .mk n _ _ _ => n

/-- Parameter-name accessor. -/
def GModule.parameterNames : GModule → List String
  | .mk _ ps _ _ => ps

/-- Method-name accessor. -/
def GModule.methodNames : GModule → List String
  | .mk _ _ ms _ => ms

/-- Submodule accessor. -/
def GModule.submodules : GModule → List GModule
  | .mk _ _ _ subs => subs

/-- The submodule walk of `route_generic_osc_api` (engine.py lines
705-710): follow each path segment through the `submodules` dicts,
failing with `None` on a missing name. -/
def walkSubmodules (m : GModule) : List String → Option GModule
  | [] => some m
  | n :: rest =>
    match m.submodules.find? (fun s => s.name == n) with
    | some s => walkSubmodules s rest
    | Option.none => Option.none

/-- The engine as seen by `route_generic_osc_api`: its name, its
top-level `modules` dict, and its own parameter/method namespaces. -/
structure GEngine where
  name : String
  modules : List GModule
  parameterNames : List String
  methodNames : List String

/-- `Engine.route_generic_osc_api` (engine.py lines 679-733).  Returns
the Python return value (`False` when a module was resolved, which stops
further routing) together with the action performed: `some (module,
method)` when a callable passing the filter was invoked, `Option.none`
otherwise.  The source contains no branch that assigns a parameter: when
`method_name` names a parameter (a `parameters` dict entry, not an
attribute), `hasattr` is false and the function falls through to
`return False` without touching any state — accordingly the embedding
needs no state output. -/
def routeGenericOscApi (e : GEngine) (address : String) (args : List Val) :
    Bool × Option (String × String × List Val) :=
  let modulePath := ((splitOnSlash address.toList).drop 1).map (fun l => String.mk l)
  if modulePath.length < 2 ∨ modulePath.headD "" ≠ e.name then (true, Option.none)
  else
    let methodName := modulePath.getLastD ""
    let path := modulePath.dropLast
    let module? :=
      if path.length > 1 then
        match e.modules.find? (fun m => m.name == path.getD 1 "") with
        | some m => walkSubmodules m (path.drop 2)
        | Option.none => Option.none
      else some (GModule.mk e.name e.parameterNames e.methodNames e.modules)
    match module? with
    | some m =>
      if methodName ∈ m.methodNames then (false, some (m.name, methodName, args))
      else (false, Option.none)
    | Option.none => (true, Option.none)

/-! ## Mappings and the module dirty-parameter machinery
(parameter.py `Mapping`, module.py) -/

/-- An outbound message bound to a parameter's address.
`Parameter.get_message_args` decorates each value with its typetag for
the transport; the decoration affects no claim, so messages carry the
plain values. -/
structure Msg where
  address : String
  args : List Val

/-- `Parameter.get_message_args` (parameter.py lines 167-179), values
only (see `Msg`). -/
def Parameter.getMessageArgs (p : Parameter) : List Val :=
  p.args

/-- `Mapping` state (parameter.py lines 234-256): source and destination
parameter paths (already in the normalized list-of-tuples form produced
by `__init__`), `n_args = len(self.dest)`, the transform, the condition
argument as passed to `add_mapping` (a parameter path per its
documentation; only its presence is ever read on a live path), and the
per-tick lock. -/
structure Mapping where
  src : List (List String)
  dest : List (List String)
  nArgs : Nat
  transform : List Val → Val
  condition : Option (List String)
  locked : Bool

/-- `Mapping.lock` (parameter.py lines 282-290): returns `False` when the
mapping is already locked, otherwise locks it and returns `True`. -/
def Mapping.lock (mp : Mapping) : Mapping × Bool :=
  if mp.locked then (mp, false) else ({ mp with locked := true }, true)

/-- `Mapping.unlock` (parameter.py lines 292-293). -/
def Mapping.unlock (mp : Mapping) : Mapping :=
  { mp with locked := false }

/-- `Module.update_mapping` (module.py lines 602-642) acting on
`self.mappings[i]`; the returned list collects the indices of mappings
whose transform was invoked during the call.  After `mapping.lock()`
succeeds, the very next statement reads `mapping.has_condition`, an
attribute `Mapping.__init__` (parameter.py lines 238-256) never assigns:
Python raises `AttributeError` before the transform is invoked or any
destination parameter is set.  The lock flag raised just before the
exception — and the rest of the method body, including the transform
call and destination writes — is unobservable by the engine loop, which
the uncaught exception terminates, so the embedding returns only the
error. -/
def updateMappingAt (mappings : List Mapping) (i : Nat) :
    Except String (List Mapping × List Nat) :=
  match mappings.get? i with
  | Option.none => .ok (mappings, [])
  | some mp =>
    if mp.locked then .ok (mappings, [])
    else .error "AttributeError: Mapping object has no attribute has_condition"

/-- The firing loop inside `Module.check_mappings` (module.py lines
585-588). -/
def fireMappings (mappings : List Mapping) (indices : List Nat) (fired : List Nat) :
    Except String (List Mapping × List Nat) :=
  match indices with
  | [] => .ok (mappings, fired)
  | i :: rest =>
    match updateMappingAt mappings i with
    | .error e => .error e
    | .ok (mappings', f) => fireMappings mappings' rest (fired ++ f)

/-- `Module.check_mappings` (module.py lines 559-600) for a module with
no meta parameters and no parent (the engine is such a module): when the
mappings list is nonempty, the mappings associated with the updated
parameter path in `mappings_srcs_map` — exactly those whose `src` list
contains the path — are updated.  The lazily built `mappings_srcs_map`
and its dependency sort only order the firing (per-mapping claims are
order-insensitive), so the embedding fires the matching mappings in
registration order.  Only the mappings list and the invocation log can
change on the (error-free) reachable paths of `update_mapping`, so only
they are threaded. -/
def checkMappings (mappings : List Mapping) (updatedParameter : List String) :
    Except String (List Mapping × List Nat) :=
  if mappings.isEmpty then .ok (mappings, [])
  else
    fireMappings mappings
      ((List.range mappings.length).filter
        (fun i =>
          match mappings.get? i with
          | some mp => mp.src.contains updatedParameter
          | Option.none => false))
      []

/-- A module as used by the dirty-parameter machinery: the `parameters`
dict is embedded as a partial map from names to parameter states, the
dirty queue holds the names keying the queued parameter objects, plus
the mappings list and the module dirty flag.  Event callbacks, meta
parameters, submodules and the parent link are absent (the claims under
study concern a module without them). -/
structure Module where
  name : String
  parameters : String → Option Parameter
  dirtyParameters : List String
  mappings : List Mapping
  dirty : Bool

/-- In-place mutation `parameter.dirty = False` of the dict entry at key
`n` (module.py line 944). -/
def clearDirtyAt (params : String → Option Parameter) (n : String) :
    String → Option Parameter :=
  fun k =>
    if k = n then (params n).map (fun p => { p with dirty := false })
    else params k

/-- One iteration of the `while not self.dirty_parameters.empty()` loop
of `Module.update_dirty_parameters` (module.py lines 936-944), applied to
the parameter object queued under `parameterName`: if its current value
differs from the last sent one, send a message (when it has an address),
record the value as last sent, emit `parameter_changed` (returned in the
events list) and check the mappings; finally clear the parameter's dirty
flag.  The dirty queue itself is only touched by `Module.set` inside
`update_mapping`, which is cut off by the `AttributeError` (see
`updateMappingAt`), so the queue is not threaded through. -/
def Module.processDirty (params : String → Option Parameter) (mappings : List Mapping)
    (parameterName : String) :
    Except String ((String → Option Parameter) × List Mapping × List Msg ×
      List String × List Nat) :=
  match params parameterName with
  | Option.none => .ok (params, mappings, [], [], [])
  | some parameter =>
    if parameter.shouldSend then
      let msgs : List Msg :=
        match parameter.address with
        | some a => [{ address := a, args := parameter.getMessageArgs }]
        | Option.none => []
      let parameter := parameter.setLastSent
      let params := fun k => if k = parameterName then some parameter else params k
      match checkMappings mappings [parameter.name] with
      | .error e => .error e
      | .ok (mappings', fired) =>
        .ok (clearDirtyAt params parameterName, mappings', msgs,
          [parameter.name], fired)
    else
      .ok (clearDirtyAt params parameterName, mappings, [], [], [])

/-- The loop of `Module.update_dirty_parameters` (module.py lines
930-948): drain the dirty queue front to back, then unlock every mapping
and clear the module dirty flag.  Accumulates outbound messages,
`parameter_changed` events and the transform-invocation log.  The queue
is passed explicitly and only shrinks: the one statement that could
enqueue during the drain — `Module.set` inside `update_mapping` — sits
beyond the `AttributeError` (see `updateMappingAt`), so iterating over
the queue's contents at entry is the loop's exact behaviour. -/
def Module.drainLoop (m : Module) (queue : List String) (msgs : List Msg)
    (events : List String) (fired : List Nat) :
    Except String (Module × List Msg × List String × List Nat) :=
  match queue with
  | [] =>
    .ok ({ m with mappings := m.mappings.map Mapping.unlock, dirty := false },
      msgs, events, fired)
  | parameterName :: rest =>
    match Module.processDirty m.parameters m.mappings parameterName with
    | .error e => .error e
    | .ok (params', mappings', ms, evs, f) =>
      Module.drainLoop { m with parameters := params', mappings := mappings' }
        rest (msgs ++ ms) (events ++ evs) (fired ++ f)

/-- `Module.update_dirty_parameters` (module.py lines 930-948): the queue
is consumed by the drain. -/
def Module.updateDirtyParameters (m : Module) :
    Except String (Module × List Msg × List String × List Nat) :=
  Module.drainLoop { m with dirtyParameters := [] } m.dirtyParameters [] [] []

/-- `Module.set` (module.py lines 331-383) for a parameter owned by the
module itself: stop a running animation (unless preserved), apply
`Parameter.set`, and either mark the parameter dirty and enqueue it (when
the value changed and it was not already dirty) or — `elif` — send an
immediate message when `force_send` is requested and the parameter has an
address. -/
def Module.setParam (m : Module) (parameterName : String) (args : List Val)
    (forceSend preserveAnimation : Bool) : Except String (Module × List Msg) :=
  match m.parameters parameterName with
  | Option.none => .ok (m, [])
  | some parameter =>
    let parameter :=
      if parameter.animateRunning && !preserveAnimation then parameter.stopAnimation
      else parameter
    match parameter.set args with
    | .error e => .error e
    | .ok (p', parameterChanged) =>
      if parameterChanged && !p'.dirty then
        .ok ({ m with
                parameters := fun k =>
                  if k = parameterName then some { p' with dirty := true }
                  else m.parameters k
                dirtyParameters := m.dirtyParameters ++ [parameterName]
                dirty := true },
          [])
      else if forceSend && p'.address.isSome then
        .ok ({ m with
                parameters := fun k =>
                  if k = parameterName then some p'.setLastSent
                  else m.parameters k },
          [{ address := p'.address.getD "", args := p'.getMessageArgs }])
      else
        .ok ({ m with
                parameters := fun k =>
                  if k = parameterName then some p' else m.parameters k },
          [])

/-- A burst of `set` calls within one tick (no `force_send`), as issued
by scenes or routing before the engine drains the dirty queues. -/
def Module.runSets (m : Module) : List (String × List Val) → Except String (Module × List Msg)
  | [] => .ok (m, [])
  | (n, args) :: rest =>
    match m.setParam n args false false with
    | .error e => .error e
    | .ok (m', msgs) =>
      match Module.runSets m' rest with
      | .error e => .error e
      | .ok (m'', msgs') => .ok (m'', msgs ++ msgs')

/-- The state a queued parameter reaches once drained: last-sent values
refreshed when they differed, dirty flag cleared. -/
def drainedParam (p : Parameter) : Parameter :=
  if p.shouldSend then { p.setLastSent with dirty := false }
  else { p with dirty := false }

/-- The messages the drain emits for one queued parameter. -/
def emittedFor (p : Parameter) : List Msg :=
  if p.shouldSend then
    match p.address with
    | some a => [{ address := a, args := p.getMessageArgs }]
    | Option.none => []
  else []

/-- The `parameter_changed` events the drain emits for one queued
parameter. -/
def eventsFor (p : Parameter) : List String :=
  if p.shouldSend then [p.name] else []

/-- All messages a drain over `queue` emits, in queue order. -/
def drainMsgs (params : String → Option Parameter) (queue : List String) : List Msg :=
  (queue.map (fun n =>
    match params n with
    | some p => emittedFor p
    | Option.none => [])).join

/-- All `parameter_changed` events a drain over `queue` emits, in queue
order. -/
def drainEvents (params : String → Option Parameter) (queue : List String) : List String :=
  (queue.map (fun n =>
    match params n with
    | some p => eventsFor p
    | Option.none => [])).join

/-- State invariant of the dirty-parameter machinery, maintained by
`Module.set` and restored by the drain: dict keys match parameter names,
a parameter is dirty exactly when queued, queued names are keys, the
queue holds no duplicates, and a non-dirty parameter has nothing pending
to send. -/
def Module.Inv (m : Module) : Prop :=
  (∀ n p, m.parameters n = some p → p.name = n) ∧
  (∀ n p, m.parameters n = some p → (p.dirty = true ↔ n ∈ m.dirtyParameters)) ∧
  (∀ n, n ∈ m.dirtyParameters → ∃ p, m.parameters n = some p) ∧
  m.dirtyParameters.Nodup ∧
  (∀ n p, m.parameters n = some p → p.dirty = false → p.shouldSend = false)

/-- The value a slot of `Parameter.args` holds after one iteration of the
`Parameter.set` loop: the cast value when it differs (Python `!=`) from
the old one, otherwise the old value is kept (the source only assigns on
a difference). -/
def castCombine (ca old : Val) : Val :=
  if pyEq ca old then old else ca

/-- The dynamic-argument suffix `Parameter.set` leaves behind: each new
argument cast per its typetag and combined with the old slot value. -/
def newDynArgs (types : List Char) (olds args : List Val) : List Val :=
  List.zipWith castCombine (List.zipWith cast types args) olds

/-- Per-slot change indicators of `Parameter.set`: whether the post-cast
value differs (Python `!=`) from the current dynamic value. -/
def castDiffs (types : List Char) (olds args : List Val) : List Bool :=
  List.zipWith (fun ca old => ! pyEq ca old) (List.zipWith cast types args) olds

/-- The parameter dict after a drain over `queue`: queued entries drained,
the rest untouched. -/
def drainParams (params : String → Option Parameter) (queue : List String) :
    String → Option Parameter :=
  fun k => if k ∈ queue then (params k).map drainedParam else params k

/-! ## Theorems.  Each claim of the specification gets one theorem below;
helper lemmas carry no claim id. -/

/-- Helper: the integer-coercion loop of `osc_to_midi` is the identity on
integer argument lists. -/
theorem oscArgsToInts_map_int (l : List Int) :
    oscArgsToInts (l.map Val.int) = some l := by
  induction l with
  | nil => rfl
  | cons x xs ih => simp [oscArgsToInts, oscArgToInt, ih]

/-- Helper for C10: the clamp in `setTempo` keeps any tempo at or above
`0.001`. -/
theorem foldl_setTempo_lower_bound (calls : List ℚ) :
    ∀ t : ℚ, 1/1000 ≤ t → 1/1000 ≤ calls.foldl setTempo t := by
  induction calls with
  | nil => intro t ht; simpa using ht
  | cons b rest ih =>
    intro t ht
    refine ih (setTempo t b) ?_
    rw [setTempo]
    split
    · exact le_max_right _ _
    · exact ht

/-- C10: after engine construction (tempo `120.0`) and any sequence of
`set_tempo` calls with arbitrary rational arguments (including zero and
negative ones), the engine tempo is at least `0.001`, hence strictly
positive, so every beats-to-seconds conversion dividing by the tempo
divides by a strictly positive number. -/
theorem tempo_always_at_least_one_thousandth (calls : List ℚ) :
    1/1000 ≤ tempoAfter calls ∧ 0 < tempoAfter calls := by
  have h : 1/1000 ≤ tempoAfter calls := by
    rw [tempoAfter]
    exact foldl_setTempo_lower_bound calls initialTempo (by norm_num [initialTempo])
  exact ⟨h, lt_of_lt_of_le (by norm_num) h⟩

/-- C3: for a beat-mode `wait(d)` started at engine tempo `τ₀`, a single
tempo change to `τ₁` at the point where fraction `f` of the wait has
elapsed rescales the pending `end_time` so that the realized wall-clock
duration equals `f·d·60/τ₀ + (1-f)·d·60/τ₁` (in nanoseconds); a
seconds-mode wait keeps its `end_time` across the tempo change and
realizes `d` seconds. -/
theorem beat_wait_rescales_across_tempo_change
    (s d f τ₀ τ₁ c' τ' : ℚ) (bm sm : List Char)
    (h₀ : 0 < τ₀) (h₁ : 0 < τ₁) (hf₀ : 0 ≤ f) (hf₁ : f ≤ 1) :
    (((Timer.init s τ₀).beginWait τ₀ d ('b' :: bm)).updateTempo
        (s + f * ((((Timer.init s τ₀).beginWait τ₀ d ('b' :: bm)).endTime) - s))
        τ₁).endTime - s
      = (f * d * 60 / τ₀ + (1 - f) * d * 60 / τ₁) * 1000000000 ∧
    (((Timer.init s τ₀).beginWait τ₀ d ('s' :: sm)).updateTempo c' τ').endTime
      = ((Timer.init s τ₀).beginWait τ₀ d ('s' :: sm)).endTime ∧
    ((Timer.init s τ₀).beginWait τ₀ d ('s' :: sm)).endTime - s = d * 1000000000 := by
  refine ⟨?_, ?_, ?_⟩
  · simp only [Timer.init, Timer.beginWait, Timer.updateTempo, if_pos]
    field_simp
    ring
  · simp [Timer.init, Timer.beginWait, Timer.updateTempo]
  · simp [Timer.init, Timer.beginWait]

/-- Witness for C3 at the spec's own scenario (§8 scenario 4): tempo 60,
change to 120 at half of a one-beat wait; the realized duration is
0.75 s. -/
theorem beat_wait_rescales_witness :
    (((Timer.init 0 60).beginWait 60 1 ('b' :: ['e', 'a', 't', 's'])).updateTempo
        (0 + (1/2) * ((((Timer.init 0 60).beginWait 60 1 ('b' :: ['e', 'a', 't', 's'])).endTime) - 0))
        120).endTime - 0
      = ((1/2) * 1 * 60 / 60 + (1 - 1/2) * 1 * 60 / 120) * 1000000000 ∧
    (((Timer.init 0 60).beginWait 60 1 ('s' :: ['e', 'c'])).updateTempo 3 120).endTime
      = ((Timer.init 0 60).beginWait 60 1 ('s' :: ['e', 'c'])).endTime ∧
    ((Timer.init 0 60).beginWait 60 1 ('s' :: ['e', 'c'])).endTime - 0 = 1 * 1000000000 :=
  beat_wait_rescales_across_tempo_change 0 1 (1/2) 60 120 3 120
    ['e', 'a', 't', 's'] ['e', 'c']
    (by norm_num) (by norm_num) (by norm_num) (by norm_num)

/-- C7 (code bug): `start_animation` with an easing whose base name is
unknown does not fall back to `"linear"`: the source rebinds only the dead
local variable `easing` and then evaluates `EASING_FUNCTIONS[easing_name]`
with the unknown name, raising `KeyError`, which escapes `animate` — the
animation is not started with linear interpolation as the spec says. -/
theorem unknown_easing_raises_keyerror :
    (Parameter.init "x" (some "/x") ['f'] [] Option.none).startAnimation 0 120
        (some (Val.float 0)) (some (Val.float 1)) 1 "beats" "smooth" false
      = .error "KeyError: smooth" ∧
    "linear" ∈ easingNames := by
  constructor
  · rfl
  · simp [easingNames]

/-- C6 (code bug): `route_generic_osc_api` on `/E/mod/vol` with module
`mod` owning parameter `vol` (and no method of that name) resolves the
module and returns `False` — consuming the message — but invokes nothing
and assigns nothing: the function has no branch that writes a parameter,
so `mod.vol` is not set and no `/vol` message is emitted. -/
theorem generic_api_does_not_assign_parameters :
    routeGenericOscApi
        { name := "E"
          modules := [GModule.mk "mod" ["vol"] [] []]
          parameterNames := []
          methodNames := [] }
        "/E/mod/vol" [Val.float (7/10)]
      = (false, Option.none) ∧
    (∀ args : List Val,
      routeGenericOscApi
        { name := "E"
          modules := [GModule.mk "mod" ["vol"] [] []]
          parameterNames := []
          methodNames := [] }
        "/E/mod/vol" args
      = (false, Option.none)) :=
  ⟨rfl, fun _ => rfl⟩

/-- Helper for C9: the callback fold of `dispatch_event` returns every
callback's result in order and the conjunction of "did not return the
`False` token". -/
theorem dispatchLevel_eq (callbacks : List (List Val → Val)) (args : List Val) :
    dispatchLevel callbacks args =
      (callbacks.map (fun cb => cb args),
       !(callbacks.map (fun cb => cb args)).any valIsFalse) := by
  have main : ∀ (cbs : List (List Val → Val)) (acc : List Val) (flag : Bool),
      cbs.foldl
        (fun acc cb =>
          let r := cb args
          (acc.1 ++ [r], if valIsFalse r then false else acc.2))
        (acc, flag) =
      (acc ++ cbs.map (fun cb => cb args),
       flag && !(cbs.map (fun cb => cb args)).any valIsFalse) := by
    intro cbs
    induction cbs with
    | nil => intro acc flag; simp
    | cons cb rest ih =>
      intro acc flag
      simp only [List.foldl_cons, ih, List.map_cons, List.any_cons]
      cases hr : valIsFalse (cb args) <;> simp [hr]
  rw [dispatchLevel, main]
  simp

/-- C9: dispatching an event runs every callback registered on the module
itself, in order — a callback returning the cancel token does not stop
the remaining callbacks of the same module — and the event is then
re-dispatched on the ancestor chain exactly when no callback on the
current module returned the cancel token. -/
theorem dispatch_event_runs_all_and_bubbles
    (callbacks : List (List Val → Val))
    (ancestors : List (List (List Val → Val))) (args : List Val) :
    dispatchEvent (callbacks :: ancestors) args =
      (callbacks.map (fun cb => cb args)) ::
        (if ∃ cb ∈ callbacks, valIsFalse (cb args) = true then []
         else dispatchEvent ancestors args) := by
  rw [dispatchEvent, dispatchLevel_eq]
  simp only []
  by_cases h : ∃ cb ∈ callbacks, valIsFalse (cb args) = true
  · have hany : (callbacks.map (fun cb => cb args)).any valIsFalse = true := by
      rcases h with ⟨cb, hcb, hfalse⟩
      exact List.any_eq_true.mpr ⟨cb args, List.mem_map_of_mem _ hcb, hfalse⟩
    simp [hany, h]
  · have hany : (callbacks.map (fun cb => cb args)).any valIsFalse = false := by
      rw [List.any_eq_false]
      rintro r hr
      rcases List.mem_map.mp hr with ⟨cb, hcb, rfl⟩
      exact fun hf => h ⟨cb, hcb, hf⟩
    simp [hany, h]


/-- C5 (counterexample): `/channel_pressure` is not in the codec table of
midi.py — `osc_to_midi` rejects it with `None`, so the claimed
translation and round trip fail at this concrete input. -/
theorem channel_pressure_rejected :
    oscToMidi "/channel_pressure" [Val.int 0, Val.int 100] = Option.none ∧
    (oscToMidi "/channel_pressure" [Val.int 0, Val.int 100]).bind midiToOsc ≠
      some ("/channel_pressure", [0, 100]) := by
  exact ⟨rfl, by decide⟩

/-- C5 (amended): the codec table holds only the nine addresses
`/note_on`, `/note_off`, `/control_change`, `/program_change`,
`/pitch_bend`, `/sysex`, `/start`, `/continue` and `/stop`; on those the
round trips hold for well-formed inputs — enumerated below as the exact
event/message shapes `SeqEvent.wellFormed` admits per kind, with
`/note_off` carrying the velocity `0` of the spec's table (`osc_to_midi`
drops a note-off velocity and `midi_to_osc` emits `0`) — while
`/channel_pressure` and `/key_pressure` are rejected in both directions. -/
theorem codec_roundtrip_on_table_addresses (c n v pa : Int) (l : List Int) :
    (SeqEvent.wellFormed ⟨SeqEventType.noteon, c, n, v, 0, 0, 0, []⟩ = true ∧
      (midiToOsc ⟨SeqEventType.noteon, c, n, v, 0, 0, 0, []⟩).bind
          (fun m => oscToMidi m.1 (m.2.map Val.int))
        = some ⟨SeqEventType.noteon, c, n, v, 0, 0, 0, []⟩) ∧
    (SeqEvent.wellFormed ⟨SeqEventType.noteoff, c, n, 0, 0, 0, 0, []⟩ = true ∧
      (midiToOsc ⟨SeqEventType.noteoff, c, n, 0, 0, 0, 0, []⟩).bind
          (fun m => oscToMidi m.1 (m.2.map Val.int))
        = some ⟨SeqEventType.noteoff, c, n, 0, 0, 0, 0, []⟩) ∧
    (SeqEvent.wellFormed ⟨SeqEventType.controller, 0, 0, 0, c, pa, v, []⟩ = true ∧
      (midiToOsc ⟨SeqEventType.controller, 0, 0, 0, c, pa, v, []⟩).bind
          (fun m => oscToMidi m.1 (m.2.map Val.int))
        = some ⟨SeqEventType.controller, 0, 0, 0, c, pa, v, []⟩) ∧
    (SeqEvent.wellFormed ⟨SeqEventType.pgmchange, 0, 0, 0, c, 0, v, []⟩ = true ∧
      (midiToOsc ⟨SeqEventType.pgmchange, 0, 0, 0, c, 0, v, []⟩).bind
          (fun m => oscToMidi m.1 (m.2.map Val.int))
        = some ⟨SeqEventType.pgmchange, 0, 0, 0, c, 0, v, []⟩) ∧
    (SeqEvent.wellFormed ⟨SeqEventType.pitchbend, 0, 0, 0, c, 0, v, []⟩ = true ∧
      (midiToOsc ⟨SeqEventType.pitchbend, 0, 0, 0, c, 0, v, []⟩).bind
          (fun m => oscToMidi m.1 (m.2.map Val.int))
        = some ⟨SeqEventType.pitchbend, 0, 0, 0, c, 0, v, []⟩) ∧
    (SeqEvent.wellFormed ⟨SeqEventType.sysex, 0, 0, 0, 0, 0, 0, l⟩ = true ∧
      (midiToOsc ⟨SeqEventType.sysex, 0, 0, 0, 0, 0, 0, l⟩).bind
          (fun m => oscToMidi m.1 (m.2.map Val.int))
        = some ⟨SeqEventType.sysex, 0, 0, 0, 0, 0, 0, l⟩) ∧
    (∀ t ∈ [SeqEventType.start, SeqEventType.cont, SeqEventType.stop],
      SeqEvent.wellFormed (SeqEvent.init t) = true ∧
      (midiToOsc (SeqEvent.init t)).bind
          (fun m => oscToMidi m.1 (m.2.map Val.int))
        = some (SeqEvent.init t)) ∧
    (oscToMidi "/note_on" [Val.int c, Val.int n, Val.int v]).bind midiToOsc
      = some ("/note_on", [c, n, v]) ∧
    (oscToMidi "/note_off" [Val.int c, Val.int n, Val.int 0]).bind midiToOsc
      = some ("/note_off", [c, n, 0]) ∧
    (oscToMidi "/control_change" [Val.int c, Val.int pa, Val.int v]).bind midiToOsc
      = some ("/control_change", [c, pa, v]) ∧
    (oscToMidi "/program_change" [Val.int c, Val.int v]).bind midiToOsc
      = some ("/program_change", [c, v]) ∧
    (oscToMidi "/pitch_bend" [Val.int c, Val.int v]).bind midiToOsc
      = some ("/pitch_bend", [c, v]) ∧
    (oscToMidi "/sysex" (l.map Val.int)).bind midiToOsc = some ("/sysex", l) ∧
    (oscToMidi "/start" ([] : List Val)).bind midiToOsc = some ("/start", []) ∧
    (oscToMidi "/continue" ([] : List Val)).bind midiToOsc = some ("/continue", []) ∧
    (oscToMidi "/stop" ([] : List Val)).bind midiToOsc = some ("/stop", []) ∧
    oscToMidi "/key_pressure" [Val.int c, Val.int n, Val.int v] = Option.none ∧
    midiToOsc (SeqEvent.init SeqEventType.chanpress) = Option.none ∧
    midiToOsc (SeqEvent.init SeqEventType.keypress) = Option.none := by
  have hsys : oscToMidi "/sysex" (l.map Val.int)
      = some ⟨SeqEventType.sysex, 0, 0, 0, 0, 0, 0, l⟩ := by
    have h := oscArgsToInts_map_int l
    simp [oscToMidi, OSC_TO_MIDI, h, SeqEvent.init]
  refine ⟨⟨rfl, rfl⟩, ⟨rfl, rfl⟩, ⟨rfl, rfl⟩, ⟨rfl, rfl⟩, ⟨rfl, rfl⟩,
    ⟨rfl, ?_⟩, ?_, rfl, rfl, rfl, rfl, rfl, ?_, rfl, rfl, rfl, rfl, rfl, rfl⟩
  · show (some ("/sysex", l)).bind (fun m => oscToMidi m.1 (m.2.map Val.int)) = _
    simpa using hsys
  · intro t ht
    fin_cases ht <;> exact ⟨rfl, rfl⟩
  · rw [hsys]
    rfl


/-- Helper: taking one past a freshly set slot yields the prefix plus the
new value. -/
theorem take_succ_set :
    ∀ (l : List Val) (i : Nat) (v : Val), i < l.length →
      (l.set i v).take (i + 1) = l.take i ++ [v] := by
  intro l
  induction l with
  | nil => intro i v h; simp at h
  | cons a tl ih =>
    intro i v h
    cases i with
    | zero => simp
    | succ j =>
      simp only [List.set_cons_succ, List.take_succ_cons, List.take_cons]
      rw [ih j v (by simpa using h)]
      simp

/-- Helper: dropping past a freshly set slot ignores the write. -/
theorem drop_succ_set :
    ∀ (l : List Val) (i : Nat) (v : Val), (l.set i v).drop (i + 1) = l.drop (i + 1) := by
  intro l
  induction l with
  | nil => intro i v; simp
  | cons a tl ih =>
    intro i v
    cases i with
    | zero => simp
    | succ j => simpa using ih j v

/-- Helper: the cast-compare-assign loop of `Parameter.set`, characterized
from index `i` on: the processed suffix becomes `newDynArgs` and the
change flag accumulates `castDiffs`. -/
theorem setLoop_spec (k : Nat) :
    ∀ (i : Nat) (p : Parameter) (args : List Val) (changed : Bool),
      i + k = p.nArgs → p.nArgs ≤ p.args.length → p.nArgs ≤ p.types.length →
      p.nArgs ≤ args.length →
      Parameter.setLoop p args i k changed = .ok
        ({ p with args := (p.args.take (p.args.length - p.nArgs + i) ++
            newDynArgs (p.types.drop (p.types.length - p.nArgs + i))
              (p.args.drop (p.args.length - p.nArgs + i)) (args.drop i)) },
         changed || ((castDiffs (p.types.drop (p.types.length - p.nArgs + i))
            (p.args.drop (p.args.length - p.nArgs + i)) (args.drop i)).any
              (fun b => b))) := by
  induction k with
  | zero =>
    intro i p args changed hi hL hT hA
    have hin : i = p.nArgs := by omega
    subst hin
    have h1 : p.args.length - p.nArgs + p.nArgs = p.args.length := by omega
    have h2 : p.types.length - p.nArgs + p.nArgs = p.types.length := by omega
    simp [Parameter.setLoop, h1, h2, newDynArgs, castDiffs]
  | succ k ih =>
    intro i p args changed hi hL hT hA
    have hin : i < p.nArgs := by omega
    have hiA : i < args.length := by omega
    have hidx : p.args.length - p.nArgs + i < p.args.length := by omega
    have hity : p.types.length - p.nArgs + i < p.types.length := by omega
    have ha : args.get? i = some (args[i]) := by
      rw [List.get?_eq_getElem?]
      exact List.getElem?_eq_getElem hiA
    have hdropA : args.drop i = args[i] :: args.drop (i + 1) :=
      List.drop_eq_getElem_cons hiA
    have hdropP : p.args.drop (p.args.length - p.nArgs + i) =
        p.args[p.args.length - p.nArgs + i] ::
          p.args.drop (p.args.length - p.nArgs + i + 1) :=
      List.drop_eq_getElem_cons hidx
    have hdropT : p.types.drop (p.types.length - p.nArgs + i) =
        p.types[p.types.length - p.nArgs + i] ::
          p.types.drop (p.types.length - p.nArgs + i + 1) :=
      List.drop_eq_getElem_cons hity
    have hgetD : p.args.getD (p.args.length - p.nArgs + i) Val.none =
        p.args[p.args.length - p.nArgs + i] :=
      List.getD_eq_getElem p.args Val.none hidx
    have hgetT : p.types.getD (p.types.length - p.nArgs + i) '*' =
        p.types[p.types.length - p.nArgs + i] :=
      List.getD_eq_getElem p.types '*' hity
    rw [Parameter.setLoop]
    rw [ha]
    simp only [hgetD, hgetT]
    by_cases hpy : pyEq
        (cast (p.types[p.types.length - p.nArgs + i]) (args[i]))
        (p.args[p.args.length - p.nArgs + i]) = true
    · rw [if_pos hpy]
      rw [ih (i + 1) p args changed (by omega) hL hT hA]
      simp only [← Nat.add_assoc]
      rw [hdropT, hdropA, hdropP]
      simp only [newDynArgs, castDiffs, List.zipWith_cons_cons, castCombine,
        hpy, eq_self_iff_true, if_true, Bool.not_true, List.any_cons, Bool.false_or]
      rw [← List.take_concat_get' p.args _ hidx, List.append_assoc,
        List.singleton_append]
    · rw [if_neg hpy]
      rw [ih (i + 1) { p with args := (p.args.set (p.args.length - p.nArgs + i)
          (cast (p.types[p.types.length - p.nArgs + i]) (args[i]))) }
        args true (by show i + 1 + k = p.nArgs; omega) (by simpa using hL)
        (by simpa using hT) hA]
      simp only [List.length_set]
      simp only [← Nat.add_assoc]
      rw [take_succ_set _ _ _ hidx, drop_succ_set]
      rw [hdropT, hdropA, hdropP]
      simp only [newDynArgs, castDiffs, List.zipWith_cons_cons, castCombine,
        hpy, if_false, Bool.not_false, List.any_cons, Bool.true_or, Bool.or_true,
        List.append_assoc, List.singleton_append]
      simp

/-- Helper: Python `round` (half to even) lands within one half of its
argument — it rounds to a nearest integer. -/
theorem pyRound_nearest (q : ℚ) : |(pyRound q : ℚ) - q| ≤ 1/2 := by
  rw [pyRound]
  have h0 : ((⌊q⌋ : ℚ)) ≤ q := Int.floor_le q
  have h1 : q < (⌊q⌋ : ℚ) + 1 := Int.lt_floor_add_one q
  split
  · next h =>
    rw [abs_le]
    push_cast
    constructor <;> linarith
  · next h =>
    split
    · next h2 =>
      rw [abs_le]
      push_cast
      constructor <;> linarith
    · next h2 =>
      have hh : q - (⌊q⌋ : ℚ) = 1/2 := le_antisymm (not_lt.mp h2) (not_lt.mp h)
      split <;> (rw [abs_le]; push_cast; constructor <;> linarith)

/-- C8: `Parameter.set` with the correct number of arguments casts each
(post-transform) argument per its typetag and writes the dynamic suffix,
reporting a change exactly when at least one post-cast value differs
(Python `!=`) from the current dynamic value; integer tags `'i'`/`'h'`
round a float to a nearest integer, boolean tags `'T'`/`'F'` ignore the
argument and return their constant, and a tag outside the cast table
passes the value through unchanged. -/
theorem parameter_set_casts_per_typetag
    (p : Parameter) (args effArgs : List Val) (q : ℚ) (w : Val) (t : Char)
    (hlen : args.length = p.nArgs)
    (heff : effArgs = (match p.transform with
      | some f => f args
      | Option.none => args))
    (heffLen : p.nArgs ≤ effArgs.length)
    (hargsLen : p.nArgs ≤ p.args.length)
    (htypes : p.nArgs ≤ p.types.length)
    (ht : t ∉ castTable) :
    p.set args = .ok
      ({ p with args := (p.args.take (p.args.length - p.nArgs) ++
          newDynArgs (p.types.drop (p.types.length - p.nArgs))
            (p.args.drop (p.args.length - p.nArgs)) effArgs) },
       (castDiffs (p.types.drop (p.types.length - p.nArgs))
          (p.args.drop (p.args.length - p.nArgs)) effArgs).any (fun b => b)) ∧
    cast 'i' (Val.float q) = Val.int (pyRound q) ∧
    cast 'h' (Val.float q) = Val.int (pyRound q) ∧
    |(pyRound q : ℚ) - q| ≤ 1/2 ∧
    cast 'T' w = Val.bool true ∧
    cast 'F' w = Val.bool false ∧
    cast t w = w := by
  refine ⟨?_, rfl, rfl, pyRound_nearest q, rfl, rfl, ?_⟩
  · have hspec := setLoop_spec p.nArgs 0 p effArgs false (by omega) hargsLen htypes heffLen
    rw [Parameter.set, if_neg (by omega)]
    have : (match p.transform with
        | some f => Parameter.setLoop p (f args) 0 p.nArgs false
        | Option.none => Parameter.setLoop p args 0 p.nArgs false) =
        Parameter.setLoop p effArgs 0 p.nArgs false := by
      cases htr : p.transform with
      | none => rw [heff, htr]
      | some f => rw [heff, htr]
    rw [this, hspec]
    simp
  · rw [cast, if_neg ht]

/-- Witness for C8 at a concrete two-value parameter: an `'i'` slot and an
`'s'` slot both change and the cast table behaves as claimed. -/
theorem parameter_set_casts_witness :
    ([Val.int 5, Val.str "hi"] : List Val).length
        = (Parameter.init "x" (some "/x") ['i', 's'] [] Option.none).nArgs ∧
    ((Parameter.init "x" (some "/x") ['i', 's'] [] Option.none).set
        [Val.int 5, Val.str "hi"] = .ok
      ({ Parameter.init "x" (some "/x") ['i', 's'] [] Option.none with
          args := [Val.int 5, Val.str "hi"] }, true) ∧
    cast 'i' (Val.float (7/10)) = Val.int (pyRound (7/10)) ∧
    |(pyRound (7/10) : ℚ) - 7/10| ≤ 1/2 ∧
    cast 'T' (Val.str "s") = Val.bool true ∧
    cast 'F' (Val.str "s") = Val.bool false ∧
    cast 'z' (Val.str "s") = Val.str "s") := by
  have h := parameter_set_casts_per_typetag
    (Parameter.init "x" (some "/x") ['i', 's'] [] Option.none)
    [Val.int 5, Val.str "hi"] [Val.int 5, Val.str "hi"] (7/10) (Val.str "s") 'z'
    rfl rfl (by decide) (by decide) (by decide) (by decide)
  refine ⟨rfl, ?_, h.2.1, h.2.2.2.1, h.2.2.2.2.1, h.2.2.2.2.2.1, h.2.2.2.2.2.2⟩
  rw [h.1]
  rfl

mutual

/-- Python `==` is reflexive on embedded values. -/
theorem pyEq_refl : ∀ v : Val, pyEq v v = true
  | .none => rfl
  | .int _ => by simp [pyEq, Val.toNum]
  | .float _ => by simp [pyEq, Val.toNum]
  | .str _ => by simp [pyEq]
  | .bool b => by cases b <;> simp [pyEq, Val.toNum]
  | .list l => by rw [pyEq]; exact pyEqList_refl l

/-- Python `==` is reflexive on embedded value lists. -/
theorem pyEqList_refl : ∀ l : List Val, pyEqList l l = true
  | [] => rfl
  | x :: xs => by rw [pyEqList, pyEq_refl x, pyEqList_refl xs]; rfl

end

/-- C4 (code bug): firing any mapping — with or without a condition —
raises `AttributeError`: `update_mapping` reads `mapping.has_condition`,
an attribute `Mapping.__init__` never assigns, before the transform could
run or any destination parameter could be written; a full tick that sets
a source parameter and drains the dirty queue dies with the same
exception instead of running the transform. -/
theorem mapping_update_raises_attribute_error :
    updateMappingAt
        [{ src := [["x"]], dest := [["y"]], nArgs := 1,
           transform := fun vs => vs.headD Val.none,
           condition := Option.none, locked := false }] 0
      = .error "AttributeError: Mapping object has no attribute has_condition" ∧
    Module.updateDirtyParameters
        { name := "mod"
          parameters := fun n =>
            if n = "x" then
              some { Parameter.init "x" (some "/x") ['f'] [] Option.none with
                      args := [Val.int 1], dirty := true }
            else Option.none
          dirtyParameters := ["x"]
          mappings := [{ src := [["x"]], dest := [["y"]], nArgs := 1,
                         transform := fun vs => vs.headD Val.none,
                         condition := Option.none, locked := false }]
          dirty := true }
      = .error "AttributeError: Mapping object has no attribute has_condition" :=
  ⟨rfl, rfl⟩

/-- Helper for C2: a successful `update_mapping` call leaves the mappings
untouched and invokes no transform (the only success path is the
lock-guarded skip). -/
theorem updateMappingAt_ok_eq (mappings : List Mapping) (i : Nat)
    (m' : List Mapping) (f : List Nat)
    (h : updateMappingAt mappings i = .ok (m', f)) : m' = mappings ∧ f = [] := by
  rw [updateMappingAt] at h
  split at h
  · have h2 := Except.ok.inj h
    simp only [Prod.mk.injEq] at h2
    exact ⟨h2.1.symm, h2.2.symm⟩
  · split at h
    · have h2 := Except.ok.inj h
      simp only [Prod.mk.injEq] at h2
      exact ⟨h2.1.symm, h2.2.symm⟩
    · exact absurd h (by simp)

/-- Helper for C2: the mapping-firing loop succeeds only without touching
the mappings or invoking any transform. -/
theorem fireMappings_ok_eq (indices : List Nat) :
    ∀ (mappings : List Mapping) (fired : List Nat) (m' : List Mapping) (f : List Nat),
      fireMappings mappings indices fired = .ok (m', f) → m' = mappings ∧ f = fired := by
  induction indices with
  | nil =>
    intro mappings fired m' f h
    rw [fireMappings] at h
    exact ⟨((Prod.mk.injEq _ _ _ _).mp (Except.ok.inj h)).1.symm,
      ((Prod.mk.injEq _ _ _ _).mp (Except.ok.inj h)).2.symm⟩
  | cons i rest ih =>
    intro mappings fired m' f h
    rw [fireMappings] at h
    cases hu : updateMappingAt mappings i with
    | error e => rw [hu] at h; exact absurd h (by simp)
    | ok r =>
      obtain ⟨m₁, f₁⟩ := r
      rw [hu] at h
      obtain ⟨hm₁, hf₁⟩ := updateMappingAt_ok_eq mappings i m₁ f₁ hu
      obtain ⟨h1, h2⟩ := ih m₁ (fired ++ f₁) m' f h
      subst hm₁
      exact ⟨h1, by simpa [hf₁] using h2⟩

/-- Helper for C2: `check_mappings` succeeds only without touching the
mappings or invoking any transform. -/
theorem checkMappings_ok_eq (mappings : List Mapping) (u : List String)
    (m' : List Mapping) (f : List Nat)
    (h : checkMappings mappings u = .ok (m', f)) : m' = mappings ∧ f = [] := by
  rw [checkMappings] at h
  split at h
  · exact ⟨((Prod.mk.injEq _ _ _ _).mp (Except.ok.inj h)).1.symm,
      ((Prod.mk.injEq _ _ _ _).mp (Except.ok.inj h)).2.symm⟩
  · exact fireMappings_ok_eq _ mappings [] m' f h

/-- Helper for C2: processing one dirty parameter succeeds only without
touching the mappings or invoking any transform. -/
theorem processDirty_ok_eq (params : String → Option Parameter)
    (mappings : List Mapping) (n : String)
    (params' : String → Option Parameter) (mappings' : List Mapping)
    (ms : List Msg) (evs : List String) (f : List Nat)
    (h : Module.processDirty params mappings n = .ok (params', mappings', ms, evs, f)) :
    mappings' = mappings ∧ f = [] := by
  rw [Module.processDirty] at h
  split at h
  · have h2 := Except.ok.inj h
    simp only [Prod.mk.injEq] at h2
    exact ⟨h2.2.1.symm, h2.2.2.2.2.symm⟩
  · split at h
    · split at h
      all_goals dsimp only at h
      all_goals split at h
      · exact absurd h (by simp)
      · rename_i mm ff heq
        have h2 := Except.ok.inj h
        simp only [Prod.mk.injEq] at h2
        obtain ⟨hcm, hcf⟩ := checkMappings_ok_eq _ _ _ _ heq
        exact ⟨h2.2.1.symm.trans hcm, h2.2.2.2.2.symm.trans hcf⟩
      · exact absurd h (by simp)
      · rename_i mm ff heq
        have h2 := Except.ok.inj h
        simp only [Prod.mk.injEq] at h2
        obtain ⟨hcm, hcf⟩ := checkMappings_ok_eq _ _ _ _ heq
        exact ⟨h2.2.1.symm.trans hcm, h2.2.2.2.2.symm.trans hcf⟩
    · have h2 := Except.ok.inj h
      simp only [Prod.mk.injEq] at h2
      exact ⟨h2.2.1.symm, h2.2.2.2.2.symm⟩

/-- Helper for C2: a drain that completes invokes no transform
(`fired` is returned as passed), unlocks every mapping, clears the module
dirty flag and keeps the queue field. -/
theorem drainLoop_ok_facts (queue : List String) :
    ∀ (m : Module) (msgs : List Msg) (events : List String) (fired : List Nat)
      (m' : Module) (msgs' : List Msg) (events' : List String) (fired' : List Nat),
      Module.drainLoop m queue msgs events fired = .ok (m', msgs', events', fired') →
      fired' = fired ∧ m'.mappings = m.mappings.map Mapping.unlock ∧
        m'.dirty = false ∧ m'.dirtyParameters = m.dirtyParameters := by
  induction queue with
  | nil =>
    intro m msgs events fired m' msgs' events' fired' h
    rw [Module.drainLoop] at h
    simp only [Except.ok.injEq, Prod.mk.injEq] at h
    rw [← h.1]
    exact ⟨h.2.2.2.symm, rfl, rfl, rfl⟩
  | cons n rest ih =>
    intro m msgs events fired m' msgs' events' fired' h
    rw [Module.drainLoop] at h
    cases hp : Module.processDirty m.parameters m.mappings n with
    | error e => rw [hp] at h; exact absurd h (by simp)
    | ok r =>
      obtain ⟨params', mappings', ms, evs, f⟩ := r
      rw [hp] at h
      obtain ⟨hm, hf⟩ := processDirty_ok_eq m.parameters m.mappings n
        params' mappings' ms evs f hp
      obtain ⟨h1, h2, h3, h4⟩ := ih _ _ _ _ _ _ _ _ h
      subst hm
      subst hf
      exact ⟨by simpa using h1, h2, h3, h4⟩

/-- C2: during one tick's drain every mapping's transform is invoked at
most once (in this source, the invocation log of a completed drain is the
one it started with — the `AttributeError` in `update_mapping` aborts any
tick that would actually fire one, so a completed drain fired none); a
locked mapping is skipped without re-firing or state change; and when the
owning module finishes draining its dirty parameters, every mapping's
per-tick lock is released. -/
theorem mapping_transform_at_most_once_per_tick
    (m m' : Module) (msgs : List Msg) (events : List String) (fired : List Nat)
    (i j : Nat) (mp mpj : Mapping)
    (hdrain : m.updateDirtyParameters = .ok (m', msgs, events, fired))
    (hmp : m.mappings.get? i = some mp)
    (hlocked : mp.locked = true)
    (hj : m'.mappings.get? j = some mpj) :
    fired.count i ≤ 1 ∧
    updateMappingAt m.mappings i = .ok (m.mappings, []) ∧
    mpj.locked = false := by
  rw [Module.updateDirtyParameters] at hdrain
  obtain ⟨hf, hmaps, _, _⟩ := drainLoop_ok_facts m.dirtyParameters _ [] [] []
    m' msgs events fired hdrain
  refine ⟨?_, ?_, ?_⟩
  · rw [hf]
    simp
  · rw [updateMappingAt, hmp]
    show (if mp.locked = true then Except.ok (m.mappings, ([] : List Nat))
          else Except.error "AttributeError: Mapping object has no attribute has_condition")
        = Except.ok (m.mappings, [])
    rw [if_pos hlocked]
  · rw [hmaps, List.get?_map] at hj
    obtain ⟨x, hx, hxeq⟩ := Option.map_eq_some'.mp hj
    rw [← hxeq]
    rfl

/-- Witness for C2 at a one-mapping module whose mapping is locked and
whose dirty queue is empty: the drain completes, fired nothing, the
locked mapping cannot re-fire, and the drain leaves it unlocked. -/
theorem mapping_lock_witness :
    (([] : List Nat).count 0 ≤ 1) ∧
    updateMappingAt
        [{ src := [["x"]], dest := [["y"]], nArgs := 1,
           transform := fun vs => vs.headD Val.none,
           condition := Option.none, locked := true }] 0
      = .ok ([{ src := [["x"]], dest := [["y"]], nArgs := 1,
                transform := fun vs => vs.headD Val.none,
                condition := Option.none, locked := true }], []) ∧
    (Mapping.unlock
        { src := [["x"]], dest := [["y"]], nArgs := 1,
          transform := fun vs => vs.headD Val.none,
          condition := Option.none, locked := true }).locked = false :=
  mapping_transform_at_most_once_per_tick
    { name := "m", parameters := fun _ => Option.none, dirtyParameters := [],
      mappings := [{ src := [["x"]], dest := [["y"]], nArgs := 1,
                     transform := fun vs => vs.headD Val.none,
                     condition := Option.none, locked := true }], dirty := false }
    { name := "m", parameters := fun _ => Option.none, dirtyParameters := [],
      mappings := [Mapping.unlock
        { src := [["x"]], dest := [["y"]], nArgs := 1,
          transform := fun vs => vs.headD Val.none,
          condition := Option.none, locked := true }], dirty := false }
    [] [] [] 0 0
    { src := [["x"]], dest := [["y"]], nArgs := 1,
      transform := fun vs => vs.headD Val.none,
      condition := Option.none, locked := true }
    (Mapping.unlock
      { src := [["x"]], dest := [["y"]], nArgs := 1,
        transform := fun vs => vs.headD Val.none,
        condition := Option.none, locked := true })
    rfl rfl rfl rfl

/-- Helper for C1: the `Parameter.set` loop only writes `args`; the
identifying and bookkeeping fields survive every iteration. -/
theorem setLoop_preserves_fields : ∀ (k : Nat) (p : Parameter) (args : List Val) (i : Nat)
    (c : Bool) (p2 : Parameter) (c2 : Bool),
    Parameter.setLoop p args i k c = .ok (p2, c2) →
    p2.name = p.name ∧ p2.dirty = p.dirty ∧ p2.address = p.address ∧
    p2.lastSent = p.lastSent := by
  intro k
  induction k with
  | zero =>
    intro p args i c p2 c2 h
    rw [Parameter.setLoop] at h
    have h2 := Except.ok.inj h
    simp only [Prod.mk.injEq] at h2
    rw [← h2.1]
    exact ⟨rfl, rfl, rfl, rfl⟩
  | succ k ih =>
    intro p args i c p2 c2 h
    rw [Parameter.setLoop] at h
    split at h
    · exact absurd h (by simp)
    · dsimp only at h
      split at h
      · exact ih p args (i + 1) c p2 c2 h
      · have h3 := ih _ args (i + 1) true p2 c2 h
        exact ⟨h3.1, h3.2.1, h3.2.2.1, h3.2.2.2⟩

/-- Helper for C1: once the `Parameter.set` loop has recorded a change,
the change flag stays raised. -/
theorem setLoop_changed_stays : ∀ (k : Nat) (p : Parameter) (args : List Val) (i : Nat)
    (p2 : Parameter) (c2 : Bool),
    Parameter.setLoop p args i k true = .ok (p2, c2) → c2 = true := by
  intro k
  induction k with
  | zero =>
    intro p args i p2 c2 h
    rw [Parameter.setLoop] at h
    have h2 := Except.ok.inj h
    simp only [Prod.mk.injEq] at h2
    exact h2.2.symm
  | succ k ih =>
    intro p args i p2 c2 h
    rw [Parameter.setLoop] at h
    split at h
    · exact absurd h (by simp)
    · dsimp only at h
      split at h
      · exact ih p args (i + 1) p2 c2 h
      · exact ih _ args (i + 1) p2 c2 h

/-- Helper for C1: a `Parameter.set` loop run that reports no change has
assigned nothing. -/
theorem setLoop_unchanged_eq : ∀ (k : Nat) (p : Parameter) (args : List Val) (i : Nat)
    (p2 : Parameter),
    Parameter.setLoop p args i k false = .ok (p2, false) → p2 = p := by
  intro k
  induction k with
  | zero =>
    intro p args i p2 h
    rw [Parameter.setLoop] at h
    have h2 := Except.ok.inj h
    simp only [Prod.mk.injEq] at h2
    exact h2.1.symm
  | succ k ih =>
    intro p args i p2 h
    rw [Parameter.setLoop] at h
    split at h
    · exact absurd h (by simp)
    · dsimp only at h
      split at h
      · exact ih p args (i + 1) p2 h
      · exact absurd (setLoop_changed_stays k _ args (i + 1) p2 false h) (by simp)

/-- Helper for C1: `Parameter.set` only writes `args`; the identifying
and bookkeeping fields are returned unchanged. -/
theorem set_preserves_fields (p : Parameter) (args : List Val) (p2 : Parameter) (c2 : Bool)
    (h : p.set args = .ok (p2, c2)) :
    p2.name = p.name ∧ p2.dirty = p.dirty ∧ p2.address = p.address ∧
    p2.lastSent = p.lastSent := by
  rw [Parameter.set] at h
  split at h
  · have h2 := Except.ok.inj h
    simp only [Prod.mk.injEq] at h2
    rw [← h2.1]
    exact ⟨rfl, rfl, rfl, rfl⟩
  · split at h
    · exact setLoop_preserves_fields _ _ _ _ _ _ _ h
    · exact setLoop_preserves_fields _ _ _ _ _ _ _ h

/-- Helper for C1: a `Parameter.set` call that reports no change returns
the parameter untouched. -/
theorem set_unchanged_eq (p : Parameter) (args : List Val) (p2 : Parameter)
    (h : p.set args = .ok (p2, false)) : p2 = p := by
  rw [Parameter.set] at h
  split at h
  · have h2 := Except.ok.inj h
    simp only [Prod.mk.injEq] at h2
    exact h2.1.symm
  · split at h
    · exact setLoop_unchanged_eq _ _ _ _ _ h
    · exact setLoop_unchanged_eq _ _ _ _ _ h

/-- Helper for C1: `Module.set` without `force_send` emits no message and
maintains the dirty-queue invariant, leaving the mappings untouched. -/
theorem setParam_inv (m : Module) (n : String) (args : List Val) (pres : Bool)
    (m2 : Module) (msgs : List Msg) (hInv : m.Inv)
    (h : m.setParam n args false pres = .ok (m2, msgs)) :
    msgs = [] ∧ m2.Inv ∧ m2.mappings = m.mappings := by
  obtain ⟨I1, I2, I3, I4, I5⟩ := hInv
  rw [Module.setParam] at h
  split at h
  · have h2 := Except.ok.inj h
    simp only [Prod.mk.injEq] at h2
    rw [← h2.1, ← h2.2]
    exact ⟨rfl, ⟨I1, I2, I3, I4, I5⟩, rfl⟩
  · rename_i parameter hpn
    dsimp only at h
    split at h
    · exact absurd h (by simp)
    · rename_i pr changed hset
      have hqname : (if parameter.animateRunning && !pres then parameter.stopAnimation
          else parameter).name = parameter.name := by
        split <;> rfl
      have hqdirty : (if parameter.animateRunning && !pres then parameter.stopAnimation
          else parameter).dirty = parameter.dirty := by
        split <;> rfl
      have hqss : (if parameter.animateRunning && !pres then parameter.stopAnimation
          else parameter).shouldSend = parameter.shouldSend := by
        split <;> rfl
      have hfield := set_preserves_fields _ args pr changed hset
      have hpname : pr.name = parameter.name := hfield.1.trans hqname
      have hpdirty : pr.dirty = parameter.dirty := hfield.2.1.trans hqdirty
      split at h
      · rename_i hcond
        have h2 := Except.ok.inj h
        simp only [Prod.mk.injEq] at h2
        rw [← h2.1, ← h2.2]
        have hpd : pr.dirty = false := by
          have hc2 := (Bool.and_eq_true _ _).mp hcond
          simpa using hc2.2
        have hnm : n ∉ m.dirtyParameters := by
          intro hmem
          have hdt := (I2 n parameter hpn).mpr hmem
          rw [hpdirty, hdt] at hpd
          exact absurd hpd (by simp)
        refine ⟨rfl, ⟨?_, ?_, ?_, ?_, ?_⟩, rfl⟩
        · intro k pk hpk
          by_cases hk : k = n
          · subst hk
            have hpk2 : (if k = k then some { pr with dirty := true }
                else m.parameters k) = some pk := hpk
            rw [if_pos rfl] at hpk2
            rw [← Option.some.inj hpk2]
            show pr.name = k
            rw [hpname]
            exact I1 k parameter hpn
          · have hpk2 : (if k = n then some { pr with dirty := true }
                else m.parameters k) = some pk := hpk
            rw [if_neg hk] at hpk2
            exact I1 k pk hpk2
        · intro k pk hpk
          by_cases hk : k = n
          · subst hk
            have hpk2 : (if k = k then some { pr with dirty := true }
                else m.parameters k) = some pk := hpk
            rw [if_pos rfl] at hpk2
            rw [← Option.some.inj hpk2]
            constructor
            · intro _
              exact List.mem_append.mpr (Or.inr (List.mem_singleton.mpr rfl))
            · intro _
              rfl
          · have hpk2 : (if k = n then some { pr with dirty := true }
                else m.parameters k) = some pk := hpk
            rw [if_neg hk] at hpk2
            have hold := I2 k pk hpk2
            constructor
            · intro hd
              exact List.mem_append.mpr (Or.inl (hold.mp hd))
            · intro hmem
              rcases List.mem_append.mp hmem with hx | hx
              · exact hold.mpr hx
              · exact absurd (List.mem_singleton.mp hx) hk
        · intro k hk
          by_cases hkn : k = n
          · subst hkn
            refine ⟨{ pr with dirty := true }, ?_⟩
            have e : (if k = k then some { pr with dirty := true }
                else m.parameters k) = some { pr with dirty := true } := if_pos rfl
            exact e
          · rcases List.mem_append.mp hk with hx | hx
            · obtain ⟨pk, hpk⟩ := I3 k hx
              have e : (if k = n then some { pr with dirty := true }
                  else m.parameters k) = m.parameters k := if_neg hkn
              exact ⟨pk, e.trans hpk⟩
            · exact absurd (List.mem_singleton.mp hx) hkn
        · rw [List.nodup_append]
          exact ⟨I4, List.nodup_singleton n,
            fun x hx hx2 => hnm ((List.mem_singleton.mp hx2) ▸ hx)⟩
        · intro k pk hpk hd
          by_cases hk : k = n
          · subst hk
            have hpk2 : (if k = k then some { pr with dirty := true }
                else m.parameters k) = some pk := hpk
            rw [if_pos rfl] at hpk2
            rw [← Option.some.inj hpk2] at hd
            exact absurd hd (by simp)
          · have hpk2 : (if k = n then some { pr with dirty := true }
                else m.parameters k) = some pk := hpk
            rw [if_neg hk] at hpk2
            exact I5 k pk hpk2 hd
      · split at h
        · rename_i hfs
          exact absurd hfs (by simp)
        · rename_i hcond hfs
          have h2 := Except.ok.inj h
          simp only [Prod.mk.injEq] at h2
          rw [← h2.1, ← h2.2]
          have hssp : pr.dirty = false → pr.shouldSend = false := by
            intro hpd
            have hparamd : parameter.dirty = false := by
              rw [← hpdirty]
              exact hpd
            have hchanged : changed = false := by
              by_cases hch : changed = true
              · exfalso
                apply hcond
                rw [hch, hpd]
                rfl
              · simpa using hch
            rw [hchanged] at hset
            have heq := set_unchanged_eq _ args pr hset
            rw [heq, hqss]
            exact I5 n parameter hpn hparamd
          refine ⟨rfl, ⟨?_, ?_, ?_, ?_, ?_⟩, rfl⟩
          · intro k pk hpk
            by_cases hk : k = n
            · subst hk
              have hpk2 : (if k = k then some pr else m.parameters k) = some pk := hpk
              rw [if_pos rfl] at hpk2
              rw [← Option.some.inj hpk2, hpname]
              exact I1 k parameter hpn
            · have hpk2 : (if k = n then some pr else m.parameters k) = some pk := hpk
              rw [if_neg hk] at hpk2
              exact I1 k pk hpk2
          · intro k pk hpk
            by_cases hk : k = n
            · subst hk
              have hpk2 : (if k = k then some pr else m.parameters k) = some pk := hpk
              rw [if_pos rfl] at hpk2
              rw [← Option.some.inj hpk2, hpdirty]
              exact I2 k parameter hpn
            · have hpk2 : (if k = n then some pr else m.parameters k) = some pk := hpk
              rw [if_neg hk] at hpk2
              exact I2 k pk hpk2
          · intro k hk
            by_cases hkn : k = n
            · subst hkn
              have e : (if k = k then some pr else m.parameters k) = some pr := if_pos rfl
              exact ⟨pr, e⟩
            · obtain ⟨pk, hpk⟩ := I3 k hk
              have e : (if k = n then some pr else m.parameters k) = m.parameters k :=
                if_neg hkn
              exact ⟨pk, e.trans hpk⟩
          · exact I4
          · intro k pk hpk hd
            by_cases hk : k = n
            · subst hk
              have hpk2 : (if k = k then some pr else m.parameters k) = some pk := hpk
              rw [if_pos rfl] at hpk2
              rw [← Option.some.inj hpk2] at hd ⊢
              exact hssp hd
            · have hpk2 : (if k = n then some pr else m.parameters k) = some pk := hpk
              rw [if_neg hk] at hpk2
              exact I5 k pk hpk2 hd

/-- Helper for C1: a burst of `set` calls without `force_send` emits no
message, maintains the invariant, and leaves the mappings untouched. -/
theorem runSets_inv (calls : List (String × List Val)) :
    ∀ (m m2 : Module) (msgs : List Msg),
      m.Inv → m.runSets calls = .ok (m2, msgs) →
      msgs = [] ∧ m2.Inv ∧ m2.mappings = m.mappings := by
  induction calls with
  | nil =>
    intro m m2 msgs hInv h
    rw [Module.runSets] at h
    have h2 := Except.ok.inj h
    simp only [Prod.mk.injEq] at h2
    rw [← h2.1, ← h2.2]
    exact ⟨rfl, hInv, rfl⟩
  | cons c rest ih =>
    intro m m2 msgs hInv h
    obtain ⟨n, args⟩ := c
    rw [Module.runSets] at h
    split at h
    · exact absurd h (by simp)
    · rename_i mA msgsA hset
      split at h
      · exact absurd h (by simp)
      · rename_i mB msgsB hrest
        have h2 := Except.ok.inj h
        simp only [Prod.mk.injEq] at h2
        obtain ⟨hfst, hsnd⟩ := h2
        obtain ⟨he1, hIA, hmapA⟩ := setParam_inv m n args false mA msgsA hInv hset
        obtain ⟨he2, hIB, hmapB⟩ := ih mA mB msgsB hIA hrest
        rw [← hfst, ← hsnd, he1, he2]
        exact ⟨rfl, hIB, hmapB.trans hmapA⟩

/-- Helper for C1: a drained parameter leaves the tick clean — dirty flag
down and nothing pending to send (its last-sent values equal its current
values under Python `!=`). -/
theorem drainedParam_clean (q : Parameter) :
    (drainedParam q).dirty = false ∧ (drainedParam q).shouldSend = false := by
  rw [drainedParam]
  by_cases hs : q.shouldSend = true
  · rw [if_pos hs]
    refine ⟨rfl, ?_⟩
    show (! pyEq q.get q.get) = false
    rw [pyEq_refl]
    rfl
  · rw [if_neg hs]
    refine ⟨rfl, ?_⟩
    show q.shouldSend = false
    simpa using hs

/-- Helper: pointwise-equal functions map a list identically (membership
version). -/
theorem map_congr_mem {α β : Type} (l : List α) :
    ∀ (f g : α → β), (∀ x, x ∈ l → f x = g x) → l.map f = l.map g := by
  induction l with
  | nil =>
    intro f g _
    rfl
  | cons x xs ih =>
    intro f g h
    rw [List.map_cons, List.map_cons, h x (List.mem_cons_self x xs),
      ih f g (fun y hy => h y (List.mem_cons_of_mem x hy))]

/-- Helper for C1: the drain messages only read the dict at the queued
names. -/
theorem drainMsgs_congr (queue : List String) (params params2 : String → Option Parameter)
    (h : ∀ k, k ∈ queue → params k = params2 k) :
    drainMsgs params queue = drainMsgs params2 queue := by
  rw [drainMsgs, drainMsgs]
  exact congrArg List.join (map_congr_mem queue _ _ (fun k hk => by rw [h k hk]))

/-- Helper for C1: the drain events only read the dict at the queued
names. -/
theorem drainEvents_congr (queue : List String) (params params2 : String → Option Parameter)
    (h : ∀ k, k ∈ queue → params k = params2 k) :
    drainEvents params queue = drainEvents params2 queue := by
  rw [drainEvents, drainEvents]
  exact congrArg List.join (map_congr_mem queue _ _ (fun k hk => by rw [h k hk]))

/-- Helper for C1: closed form of the dirty-queue drain for a module with
no mappings — every queued parameter is drained once, the messages and
events are exactly the per-parameter ones in queue order, and no mapping
transform fires. -/
theorem drainLoop_nomap (queue : List String) :
    ∀ (m : Module) (msgs : List Msg) (events : List String) (fired : List Nat),
      m.mappings = [] → queue.Nodup →
      Module.drainLoop m queue msgs events fired
        = .ok (
            { m with
                parameters := drainParams m.parameters queue
                mappings := ([] : List Mapping)
                dirty := false },
            msgs ++ drainMsgs m.parameters queue,
            events ++ drainEvents m.parameters queue, fired) := by
  induction queue with
  | nil =>
    intro m msgs events fired hm _
    rw [Module.drainLoop, hm]
    have hp : drainParams m.parameters [] = m.parameters := funext fun k => by
      rw [drainParams]
      simp
    rw [hp, drainMsgs, drainEvents]
    simp
  | cons n rest ih =>
    intro m msgs events fired hm hnd
    obtain ⟨hn, hnd2⟩ := List.nodup_cons.mp hnd
    rw [Module.drainLoop, hm]
    cases hpn : m.parameters n with
    | none =>
      have hproc : Module.processDirty m.parameters [] n
          = .ok (m.parameters, [], [], [], []) := by
        rw [Module.processDirty, hpn]
      rw [hproc]
      dsimp only
      have key := ih { m with parameters := m.parameters, mappings := ([] : List Mapping) }
        (msgs ++ []) (events ++ []) (fired ++ []) rfl hnd2
      rw [key]
      dsimp only
      have e1 : drainParams m.parameters rest = drainParams m.parameters (n :: rest) :=
        funext fun k => by
          rw [drainParams, drainParams]
          by_cases hk : k = n
          · subst hk
            rw [if_neg hn, if_pos (List.mem_cons_self k rest), hpn]
            rfl
          · by_cases hkr : k ∈ rest
            · rw [if_pos hkr, if_pos (List.mem_cons_of_mem n hkr)]
            · rw [if_neg hkr, if_neg (by simp [hk, hkr])]
      have e2 : drainMsgs m.parameters (n :: rest) = drainMsgs m.parameters rest := by
        rw [drainMsgs, drainMsgs]
        simp [List.map_cons, List.join_cons, hpn]
      have e3 : drainEvents m.parameters (n :: rest) = drainEvents m.parameters rest := by
        rw [drainEvents, drainEvents]
        simp [List.map_cons, List.join_cons, hpn]
      rw [e2, e3, ← e1]
      simp
    | some p =>
      by_cases hs : p.shouldSend = true
      · have hproc : Module.processDirty m.parameters [] n
            = .ok (clearDirtyAt (fun k => if k = n then some p.setLastSent
                    else m.parameters k) n,
                [],
                (match p.address with
                 | some a => [{ address := a, args := p.getMessageArgs }]
                 | Option.none => []),
                [p.name], []) := by
          rw [Module.processDirty, hpn]
          dsimp only
          rw [if_pos hs]
          rfl
        rw [hproc]
        dsimp only
        have key := ih
          { m with
              parameters := (clearDirtyAt (fun k => if k = n then some p.setLastSent
                else m.parameters k) n)
              mappings := ([] : List Mapping) }
          (msgs ++ (match p.address with
             | some a => [{ address := a, args := p.getMessageArgs }]
             | Option.none => []))
          (events ++ [p.name]) (fired ++ []) rfl hnd2
        rw [key]
        dsimp only
        have ePne : ∀ k, k ≠ n →
            clearDirtyAt (fun k2 => if k2 = n then some p.setLastSent
              else m.parameters k2) n k = m.parameters k := by
          intro k hkn
          rw [clearDirtyAt]
          rw [if_neg hkn, if_neg hkn]
        have ePrest : ∀ k, k ∈ rest →
            clearDirtyAt (fun k2 => if k2 = n then some p.setLastSent
              else m.parameters k2) n k = m.parameters k :=
          fun k hk => ePne k (fun he => hn (he ▸ hk))
        have ecM := drainMsgs_congr rest _ _ ePrest
        have ecE := drainEvents_congr rest _ _ ePrest
        have e1 : drainParams (clearDirtyAt (fun k2 => if k2 = n then some p.setLastSent
              else m.parameters k2) n) rest
            = drainParams m.parameters (n :: rest) := funext fun k => by
          rw [drainParams, drainParams]
          by_cases hk : k = n
          · subst hk
            rw [if_neg hn, if_pos (List.mem_cons_self k rest)]
            rw [clearDirtyAt]
            rw [if_pos rfl, if_pos rfl, hpn]
            simp [drainedParam, hs]
          · by_cases hkr : k ∈ rest
            · rw [if_pos hkr, if_pos (List.mem_cons_of_mem n hkr), ePne k hk]
            · rw [if_neg hkr, if_neg (by simp [hk, hkr]), ePne k hk]
        have e2 : drainMsgs m.parameters (n :: rest)
            = (match p.address with
               | some a => [{ address := a, args := p.getMessageArgs }]
               | Option.none => []) ++ drainMsgs m.parameters rest := by
          rw [drainMsgs, drainMsgs]
          simp [List.map_cons, List.join_cons, hpn, emittedFor, hs]
        have e3 : drainEvents m.parameters (n :: rest)
            = [p.name] ++ drainEvents m.parameters rest := by
          rw [drainEvents, drainEvents]
          simp [List.map_cons, List.join_cons, hpn, eventsFor, hs]
        rw [ecM, ecE, e1, e2, e3]
        simp
      · have hproc : Module.processDirty m.parameters [] n
            = .ok (clearDirtyAt m.parameters n, [], [], [], []) := by
          rw [Module.processDirty, hpn]
          dsimp only
          rw [if_neg hs]
        rw [hproc]
        dsimp only
        have key := ih
          { m with
              parameters := (clearDirtyAt m.parameters n)
              mappings := ([] : List Mapping) }
          (msgs ++ []) (events ++ []) (fired ++ []) rfl hnd2
        rw [key]
        dsimp only
        have ePne : ∀ k, k ≠ n → clearDirtyAt m.parameters n k = m.parameters k := by
          intro k hkn
          rw [clearDirtyAt]
          rw [if_neg hkn]
        have ePrest : ∀ k, k ∈ rest → clearDirtyAt m.parameters n k = m.parameters k :=
          fun k hk => ePne k (fun he => hn (he ▸ hk))
        have ecM := drainMsgs_congr rest _ _ ePrest
        have ecE := drainEvents_congr rest _ _ ePrest
        have e1 : drainParams (clearDirtyAt m.parameters n) rest
            = drainParams m.parameters (n :: rest) := funext fun k => by
          rw [drainParams, drainParams]
          by_cases hk : k = n
          · subst hk
            rw [if_neg hn, if_pos (List.mem_cons_self k rest)]
            rw [clearDirtyAt]
            rw [if_pos rfl, hpn]
            simp [drainedParam, hs]
          · by_cases hkr : k ∈ rest
            · rw [if_pos hkr, if_pos (List.mem_cons_of_mem n hkr), ePne k hk]
            · rw [if_neg hkr, if_neg (by simp [hk, hkr]), ePne k hk]
        have e2 : drainMsgs m.parameters (n :: rest) = drainMsgs m.parameters rest := by
          rw [drainMsgs, drainMsgs]
          simp [List.map_cons, List.join_cons, hpn, emittedFor, hs]
        have e3 : drainEvents m.parameters (n :: rest) = drainEvents m.parameters rest := by
          rw [drainEvents, drainEvents]
          simp [List.map_cons, List.join_cons, hpn, eventsFor, hs]
        rw [ecM, ecE, e2, e3, ← e1]
        simp

/-- Helper for C1: among drained parameters whose address is unique, the
drain emits exactly one message to that address when the owning parameter
is queued with pending values, and none otherwise. -/
theorem drainMsgs_count (a : String) (n : String) (p : Parameter)
    (queue : List String) :
    ∀ (params : String → Option Parameter),
      params n = some p → p.address = some a →
      (∀ n2 p2, params n2 = some p2 → p2.address = some a → n2 = n) →
      queue.Nodup →
      (drainMsgs params queue).countP (fun msg => msg.address == a)
        = if n ∈ queue ∧ p.shouldSend = true then 1 else 0 := by
  induction queue with
  | nil =>
    intro params hp hpa haddr hnd
    simp [drainMsgs]
  | cons q rest ih =>
    intro params hp hpa haddr hnd
    obtain ⟨hqr, hnd2⟩ := List.nodup_cons.mp hnd
    have hrest := ih params hp hpa haddr hnd2
    by_cases hqn : q = n
    · subst hqn
      have hdec : drainMsgs params (q :: rest) = emittedFor p ++ drainMsgs params rest := by
        rw [drainMsgs, drainMsgs]
        simp [List.map_cons, List.join_cons, hp]
      have hhead : (emittedFor p).countP (fun msg => msg.address == a)
          = if p.shouldSend = true then 1 else 0 := by
        rw [emittedFor]
        by_cases hs : p.shouldSend = true
        · rw [if_pos hs, if_pos hs, hpa]
          simp
        · rw [if_neg hs, if_neg hs]
          rfl
      rw [hdec, List.countP_append, hhead, hrest,
        if_neg (fun hc => hqr (And.left hc))]
      by_cases hs : p.shouldSend = true
      · rw [if_pos hs, if_pos ⟨List.mem_cons_self q rest, hs⟩]
      · rw [if_neg hs, if_neg (fun hc => hs (And.right hc))]
    · have hmem : (n ∈ q :: rest ∧ p.shouldSend = true)
          ↔ (n ∈ rest ∧ p.shouldSend = true) := by
        constructor
        · rintro ⟨hm, hs2⟩
          rcases List.mem_cons.mp hm with he | hm2
          · exact absurd he.symm hqn
          · exact ⟨hm2, hs2⟩
        · rintro ⟨hm, hs2⟩
          exact ⟨List.mem_cons_of_mem q hm, hs2⟩
      cases hpq : params q with
      | none =>
        have hdec : drainMsgs params (q :: rest) = drainMsgs params rest := by
          rw [drainMsgs, drainMsgs]
          simp [List.map_cons, List.join_cons, hpq]
        rw [hdec, hrest, if_congr hmem rfl rfl]
      | some pq =>
        have hdec : drainMsgs params (q :: rest)
            = emittedFor pq ++ drainMsgs params rest := by
          rw [drainMsgs, drainMsgs]
          simp [List.map_cons, List.join_cons, hpq]
        have hhead : (emittedFor pq).countP (fun msg => msg.address == a) = 0 := by
          rw [emittedFor]
          by_cases hs : pq.shouldSend = true
          · rw [if_pos hs]
            cases hpqa : pq.address with
            | none => rfl
            | some a2 =>
              have ha2 : a2 ≠ a := by
                intro he
                exact hqn (haddr q pq hpq (by rw [hpqa, he]))
              simp [List.countP_cons, ha2]
          · rw [if_neg hs]
            rfl
        rw [hdec, List.countP_append, hhead, hrest, if_congr hmem rfl rfl]
        simp

/-- C1: over one engine tick — a burst of `set` calls without
`force_send` followed by the end-of-tick dirty-queue drain — the set
phase emits nothing; for a parameter whose address is unique in the
module, the number of outbound messages to that address over the whole
tick equals `1` exactly when the parameter has pending values
(`should_send`, i.e. current values differ from last-sent under Python
`!=`) at the moment the queue is drained, hence is at most one; and after
the drain every parameter of the module has its dirty flag down and
nothing left to send (last-sent equals current), with the queue empty.
Stated for a module without mappings (mappings are the subject of C2 and
C4). -/
theorem dirty_drain_one_message_per_parameter
    (m : Module) (calls : List (String × List Val)) (m₁ m₂ : Module)
    (msgs₁ msgs₂ : List Msg) (events : List String) (fired : List Nat)
    (n : String) (p : Parameter) (a : String) (n₂ : String) (p₂ : Parameter)
    (hInv : m.Inv) (hmap : m.mappings = [])
    (hrun : m.runSets calls = .ok (m₁, msgs₁))
    (hdrain : m₁.updateDirtyParameters = .ok (m₂, msgs₂, events, fired))
    (haddr : ∀ n3 p3, m₁.parameters n3 = some p3 → p3.address = some a → n3 = n)
    (hp : m₁.parameters n = some p) (hpa : p.address = some a)
    (hp₂ : m₂.parameters n₂ = some p₂) :
    msgs₁ = [] ∧
    (msgs₁ ++ msgs₂).countP (fun msg => msg.address == a)
      = (if p.shouldSend = true then 1 else 0) ∧
    (msgs₁ ++ msgs₂).countP (fun msg => msg.address == a) ≤ 1 ∧
    p₂.dirty = false ∧ p₂.shouldSend = false ∧ m₂.dirtyParameters = [] := by
  obtain ⟨hm1, hI1, hmapEq⟩ := runSets_inv calls m m₁ msgs₁ hInv hrun
  obtain ⟨I1, I2, I3, I4, I5⟩ := hI1
  have hmap1 : m₁.mappings = [] := hmapEq.trans hmap
  rw [Module.updateDirtyParameters] at hdrain
  have hdn : ({ m₁ with dirtyParameters := ([] : List String) } : Module).mappings = [] :=
    hmap1
  rw [drainLoop_nomap m₁.dirtyParameters { m₁ with dirtyParameters := ([] : List String) }
    [] [] [] hdn I4] at hdrain
  have h2 := Except.ok.inj hdrain
  simp only [Prod.mk.injEq] at h2
  obtain ⟨hm2, hmsgs2, hevents2, hfired⟩ := h2
  have hmsgs2b : msgs₂ = drainMsgs m₁.parameters m₁.dirtyParameters := by
    rw [← hmsgs2]
    rfl
  have hcount := drainMsgs_count a n p m₁.dirtyParameters m₁.parameters hp hpa haddr I4
  have hiff : (n ∈ m₁.dirtyParameters ∧ p.shouldSend = true) ↔ p.shouldSend = true := by
    constructor
    · exact fun hc => hc.2
    · intro hs
      refine ⟨?_, hs⟩
      by_cases hd : p.dirty = true
      · exact (I2 n p hp).mp hd
      · have hd2 : p.dirty = false := by simpa using hd
        have hss := I5 n p hp hd2
        rw [hss] at hs
        exact absurd hs (by simp)
  have hcnt2 : (msgs₁ ++ msgs₂).countP (fun msg => msg.address == a)
      = (if p.shouldSend = true then 1 else 0) := by
    rw [hm1, List.nil_append, hmsgs2b, hcount, if_congr hiff rfl rfl]
  have hpair : p₂.dirty = false ∧ p₂.shouldSend = false := by
    have hp₂b : drainParams m₁.parameters m₁.dirtyParameters n₂ = some p₂ := by
      rw [← hm2] at hp₂
      exact hp₂
    by_cases hmem : n₂ ∈ m₁.dirtyParameters
    · have hmap2 : (m₁.parameters n₂).map drainedParam = some p₂ := by
        rw [← hp₂b, drainParams]
        rw [if_pos hmem]
      cases hq : m₁.parameters n₂ with
      | none =>
        rw [hq] at hmap2
        exact absurd hmap2 (by simp)
      | some q =>
        rw [hq] at hmap2
        have hqd : drainedParam q = p₂ := Option.some.inj hmap2
        rw [← hqd]
        exact drainedParam_clean q
    · have hp₂c : m₁.parameters n₂ = some p₂ := by
        rw [← hp₂b, drainParams]
        rw [if_neg hmem]
      have hd : p₂.dirty = false := by
        by_cases hdd : p₂.dirty = true
        · exact absurd ((I2 n₂ p₂ hp₂c).mp hdd) hmem
        · simpa using hdd
      exact ⟨hd, I5 n₂ p₂ hp₂c hd⟩
  have hdp : m₂.dirtyParameters = [] := by
    rw [← hm2]
  refine ⟨hm1, hcnt2, ?_, hpair.1, hpair.2, hdp⟩
  rw [hcnt2]
  split
  · exact le_refl 1
  · exact Nat.zero_le 1

/-- Witness for C1 at a one-parameter module: `x` holds `5` against a
last-sent of `None`, is queued, and the tick emits exactly one message to
`/x`, leaving the parameter clean. -/
theorem dirty_drain_witness :
    ([] : List Msg) = [] ∧
    (([] : List Msg) ++ ([{ address := "/x", args := [Val.int 5] }] : List Msg)).countP
        (fun msg => msg.address == "/x")
      = (if ({ Parameter.init "x" (some "/x") ['i'] [] Option.none with
              args := [Val.int 5], dirty := true } : Parameter).shouldSend = true
         then 1 else 0) ∧
    (([] : List Msg) ++ ([{ address := "/x", args := [Val.int 5] }] : List Msg)).countP
        (fun msg => msg.address == "/x") ≤ 1 ∧
    ({ Parameter.init "x" (some "/x") ['i'] [] Option.none with
       args := [Val.int 5], dirty := false, lastSent := Val.int 5 } : Parameter).dirty
      = false ∧
    ({ Parameter.init "x" (some "/x") ['i'] [] Option.none with
       args := [Val.int 5], dirty := false, lastSent := Val.int 5 } : Parameter).shouldSend
      = false ∧
    ([] : List String) = [] :=
  dirty_drain_one_message_per_parameter
    { name := "m"
      parameters := (fun k => if k = "x" then
        some { Parameter.init "x" (some "/x") ['i'] [] Option.none with
               args := [Val.int 5], dirty := true }
        else Option.none)
      dirtyParameters := ["x"]
      mappings := ([] : List Mapping)
      dirty := true }
    []
    { name := "m"
      parameters := (fun k => if k = "x" then
        some { Parameter.init "x" (some "/x") ['i'] [] Option.none with
               args := [Val.int 5], dirty := true }
        else Option.none)
      dirtyParameters := ["x"]
      mappings := ([] : List Mapping)
      dirty := true }
    { name := "m"
      parameters := (clearDirtyAt
        (fun k => if k = "x" then
          some ({ Parameter.init "x" (some "/x") ['i'] [] Option.none with
                  args := [Val.int 5], dirty := true } : Parameter).setLastSent
          else (if k = "x" then
            some { Parameter.init "x" (some "/x") ['i'] [] Option.none with
                   args := [Val.int 5], dirty := true }
            else Option.none)) "x")
      dirtyParameters := ([] : List String)
      mappings := ([] : List Mapping)
      dirty := false }
    [] ([{ address := "/x", args := [Val.int 5] }] : List Msg) ["x"] []
    "x"
    { Parameter.init "x" (some "/x") ['i'] [] Option.none with
      args := [Val.int 5], dirty := true }
    "/x" "x"
    { Parameter.init "x" (some "/x") ['i'] [] Option.none with
      args := [Val.int 5], dirty := false, lastSent := Val.int 5 }
    (by
      refine ⟨?_, ?_, ?_, ?_, ?_⟩
      · intro k pk hpk
        by_cases hk : k = "x"
        · subst hk
          have h2 : some ({ Parameter.init "x" (some "/x") ['i'] [] Option.none with
              args := [Val.int 5], dirty := true } : Parameter) = some pk := hpk
          rw [← Option.some.inj h2]
          rfl
        · have h2 : (if k = "x" then
              some ({ Parameter.init "x" (some "/x") ['i'] [] Option.none with
                      args := [Val.int 5], dirty := true } : Parameter)
              else Option.none) = some pk := hpk
          rw [if_neg hk] at h2
          exact Option.noConfusion h2
      · intro k pk hpk
        by_cases hk : k = "x"
        · subst hk
          have h2 : some ({ Parameter.init "x" (some "/x") ['i'] [] Option.none with
              args := [Val.int 5], dirty := true } : Parameter) = some pk := hpk
          rw [← Option.some.inj h2]
          constructor
          · intro _
            exact List.mem_singleton.mpr rfl
          · intro _
            rfl
        · have h2 : (if k = "x" then
              some ({ Parameter.init "x" (some "/x") ['i'] [] Option.none with
                      args := [Val.int 5], dirty := true } : Parameter)
              else Option.none) = some pk := hpk
          rw [if_neg hk] at h2
          exact Option.noConfusion h2
      · intro k hk
        have hk2 : k = "x" := List.mem_singleton.mp hk
        subst hk2
        exact ⟨{ Parameter.init "x" (some "/x") ['i'] [] Option.none with
                 args := [Val.int 5], dirty := true }, rfl⟩
      · exact List.nodup_singleton "x"
      · intro k pk hpk hd
        by_cases hk : k = "x"
        · subst hk
          have h2 : some ({ Parameter.init "x" (some "/x") ['i'] [] Option.none with
              args := [Val.int 5], dirty := true } : Parameter) = some pk := hpk
          rw [← Option.some.inj h2] at hd
          simp at hd
        · have h2 : (if k = "x" then
              some ({ Parameter.init "x" (some "/x") ['i'] [] Option.none with
                      args := [Val.int 5], dirty := true } : Parameter)
              else Option.none) = some pk := hpk
          rw [if_neg hk] at h2
          exact Option.noConfusion h2)
    rfl rfl rfl
    (by
      intro n3 p3 h1 h2
      by_cases hk : n3 = "x"
      · exact hk
      · exfalso
        have h1b : (if n3 = "x" then
            some ({ Parameter.init "x" (some "/x") ['i'] [] Option.none with
                    args := [Val.int 5], dirty := true } : Parameter)
            else Option.none) = some p3 := h1
        rw [if_neg hk] at h1b
        exact Option.noConfusion h1b)
    rfl rfl rfl

end Mentat
